import Mathlib

/-!
Verification development for the quarr.js SQL-like query engine
(`sqlEngine.ts`: `parseSQL`, `parseWhere`, `evalCondition`, `evalSimpleExpr`,
`computeAggregatesForGroup`, `executeAST`, `cleanQueryString` and helpers).

The engine works on JavaScript strings and loosely-typed records.  We embed
query text as `List Char` (JS strings are indexable character sequences) and
records as insertion-ordered association lists of string keys to a `Value`
type mirroring the JS values the engine manipulates (null, undefined,
numbers, strings, booleans, plain objects).  JS numbers are modelled as
rationals: every arithmetic step the claims exercise (sums, averages over
small integer data) is exact in double precision, and `NaN` is represented
by failure of the `Option`-valued coercion `jsToNumber`, matching the
engine's `Number.isNaN` tests.  Built-in JS string-to-number coercion is
modelled for decimal numeric literals (the only numeric literal form the
engine's queries and data use); non-decimal forms coerce to `none` (NaN).
-/

namespace Quarr

abbrev Chars := List Char

def strL (s : String) : Chars := s.data

/-- JS whitespace characters relevant to `trim`, `\s` and `split(/\s+/)`. -/
def isWsChar (c : Char) : Bool :=
  c = ' ' || c = '\t' || c = '\n' || c = '\r' || c = '\x0b' || c = '\x0c'

def toUpperL (l : Chars) : Chars := l.map Char.toUpper

def toLowerL (l : Chars) : Chars := l.map Char.toLower

/-- `String.prototype.trim`. -/
def trimL (l : Chars) : Chars :=
  ((l.dropWhile isWsChar).reverse.dropWhile isWsChar).reverse

mutual

/-- `replace(/\s+/g, " ")`: collapse every whitespace run to a single
space (`collapseSkip` is the state inside a run whose space was already
emitted). -/
def collapseWs : Chars → Chars
  | [] => []
  | c :: rest =>
    if isWsChar c then ' ' :: collapseSkip rest else c :: collapseWs rest

def collapseSkip : Chars → Chars
  | [] => []
  | c :: rest =>
    if isWsChar c then collapseSkip rest else c :: collapseWs rest

end

/-- `startsWith` on character lists (exact, case-sensitive). -/
def startsWithL (pre l : Chars) : Bool := pre.isPrefixOf l

/-- `String.prototype.includes` (substring search). -/
def containsSub (needle : Chars) : Chars → Bool
  | [] => needle.isEmpty
  | c :: rest => needle.isPrefixOf (c :: rest) || containsSub needle rest

/-- `String.prototype.split` with a single-character separator.
`splitOnCharL ',' "a,,b"` = `["a", "", "b"]`, and splitting the empty
string yields `[""]`, as in JS. -/
def splitOnCharL (sep : Char) : Chars → List Chars
  | [] => [[]]
  | c :: rest =>
    if c = sep then [] :: splitOnCharL sep rest
    else
      match splitOnCharL sep rest with
      | [] => [[c]]
      | piece :: more => (c :: piece) :: more

/-- JS loosely-typed runtime values, as far as the engine observes them. -/
inductive Value where
  | vNull : Value
  | vUndef : Value
  | vNum (q : ℚ) : Value
  | vStr (s : Chars) : Value
  | vBool (b : Bool) : Value
  | vObj (fields : List (Chars × Value)) : Value

open Value

/-- A record (JS plain object): insertion-ordered key/value pairs. -/
abbrev Record := List (Chars × Value)

/-- Property read `obj[key]`: first matching key, `undefined` when absent. -/
def objGet : Record → Chars → Value
  | [], _ => vUndef
  | (k, v) :: rest, key => if k = key then v else objGet rest key

/-- Property write `obj[key] = v`: overwrite in place, else append
(JS objects keep string-key insertion order). -/
def objSet : Record → Chars → Value → Record
  | [], key, v => [(key, v)]
  | (k, w) :: rest, key, v =>
    if k = key then (k, v) :: rest else (k, w) :: objSet rest key v

/-- `Object.assign(target, source)`: copy every own property in order. -/
def objAssign (target source : Record) : Record :=
  source.foldl (fun acc kv => objSet acc kv.1 kv.2) target

/-! ### JS coercions -/

def natOfDigits (l : Chars) : Nat :=
  l.foldl (fun a c => a * 10 + (c.toNat - 48)) 0

/-- `Number(string)` on a trimmed, non-empty string: an optionally signed
decimal literal (`123`, `1.5`, `.5`, `2.`); anything else is NaN (`none`).
Non-decimal `Number` forms (hex, exponents, `Infinity`) are outside the
model and also return `none`; the engine's queries and data never use
them. -/
def strToNumCore (l : Chars) : Option ℚ :=
  let signed : ℚ × Chars :=
    match l with
    | '+' :: r => (1, r)
    | '-' :: r => (-1, r)
    | r => (1, r)
  let sign := signed.1
  let rest := signed.2
  let intPart := rest.takeWhile Char.isDigit
  let rest2 := rest.dropWhile Char.isDigit
  match rest2 with
  | [] => if intPart.isEmpty then none else some (sign * natOfDigits intPart)
  | '.' :: frac =>
    let fracD := frac.takeWhile Char.isDigit
    let rest3 := frac.dropWhile Char.isDigit
    if rest3.isEmpty && !(intPart.isEmpty && fracD.isEmpty) then
      some (sign * ((natOfDigits intPart : ℚ) +
        (natOfDigits fracD : ℚ) / (10 : ℚ) ^ fracD.length))
    else none
  | _ => none

/-- `Number(string)`: trim; the empty string coerces to 0. -/
def jsStrToNum (l : Chars) : Option ℚ :=
  let t := trimL l
  if t.isEmpty then some 0 else strToNumCore t

/-- `Number(value)` / ToNumber; `none` plays the role of NaN.  A plain
object's ToPrimitive is the string `"[object Object]"`, which is NaN. -/
def jsToNumber : Value → Option ℚ
  | vNull => some 0
  | vUndef => none
  | vNum q => some q
  | vStr s => jsStrToNum s
  | vBool b => some (if b then 1 else 0)
  | vObj _ => none

/-- Multiplicity-and-remainder of the prime `p` in `n` (fuelled). -/
def stripFactor (p : Nat) : Nat → Nat → Nat × Nat
  | 0, n => (0, n)
  | fuel + 1, n =>
    if 2 ≤ p && n % p = 0 && n / p ≠ 0 then
      let r := stripFactor p fuel (n / p)
      (r.1 + 1, r.2)
    else (0, n)

def padLeftZeros (l : Chars) (k : Nat) : Chars :=
  List.replicate (k - l.length) '0' ++ l

/-- Decimal rendering of `m / 10^k` (trailing fraction zeros stripped). -/
def decimalRepr (m : ℤ) (k : Nat) : Chars :=
  let sign : Chars := if m < 0 then ['-'] else []
  let n := m.natAbs
  let ip := n / 10 ^ k
  let fp := n % 10 ^ k
  let fracDigits :=
    ((padLeftZeros (toString fp).data k).reverse.dropWhile (· = '0')).reverse
  if fracDigits.isEmpty then sign ++ (toString ip).data
  else sign ++ (toString ip).data ++ '.' :: fracDigits

/-- `String(number)`.  Exact for integers and for rationals with a
10-smooth denominator (the only numbers double arithmetic over the
engine's decimal inputs can print exactly); other denominators — where
the double model and the rational model already diverge — fall back to a
`num/den` rendering that no claim relies on. -/
def numToString (q : ℚ) : Chars :=
  if q.den = 1 then (toString q.num).data
  else
    let s2 := stripFactor 2 q.den q.den
    let s5 := stripFactor 5 s2.2 s2.2
    if s5.2 = 1 then
      let k := max s2.1 s5.1
      decimalRepr (q.num * ((10 : ℤ) ^ k / (q.den : ℤ))) k
    else (toString q.num).data ++ '/' :: (toString q.den).data

/-- `String(value)`. -/
def jsToString : Value → Chars
  | vNull => strL "null"
  | vUndef => strL "undefined"
  | vNum q => numToString q
  | vStr s => s
  | vBool b => if b then strL "true" else strL "false"
  | vObj _ => strL "[object Object]"

def jsonEscape (s : Chars) : Chars :=
  s.foldr (fun c acc => if c = '"' || c = '\\' then '\\' :: c :: acc else c :: acc) []

/-- `JSON.stringify(value)`; `undefined` values are omitted (`none`). -/
def jsonStringify : Value → Option Chars
  | vNull => some (strL "null")
  | vUndef => none
  | vNum q => some (numToString q)
  | vStr s => some ('"' :: (jsonEscape s ++ ['"']))
  | vBool b => some (if b then strL "true" else strL "false")
  | vObj fs => some ('{' :: (jsonFields fs ++ ['}']))
where
  jsonFields : List (Chars × Value) → Chars
    | [] => []
    | (k, v) :: rest =>
      match jsonStringify v with
      | none => jsonFields rest
      | some enc =>
        let entry := '"' :: (jsonEscape k ++ ['"', ':'] ++ enc)
        match rest with
        | [] => entry
        | _ =>
          let tail := jsonFields rest
          if tail.isEmpty then entry else entry ++ ',' :: tail

/-- ToPrimitive with number hint, as the relational operators use it. -/
def toPrim : Value → Value
  | vObj _ => vStr (strL "[object Object]")
  | v => v

/-- Lexicographic UTF-16 code-unit string comparison (`a < b` on strings). -/
def lexLt : Chars → Chars → Bool
  | [], [] => false
  | [], _ :: _ => true
  | _ :: _, [] => false
  | a :: as, b :: bs => if a = b then lexLt as bs else decide (a.toNat < b.toNat)

/-- JS abstract relational comparison `x < y`; `none` when NaN is involved. -/
def relLess (x y : Value) : Option Bool :=
  match toPrim x, toPrim y with
  | vStr a, vStr b => some (lexLt a b)
  | px, py =>
    match jsToNumber px, jsToNumber py with
    | some a, some b => some (decide (a < b))
    | _, _ => none

def jsLt (a b : Value) : Bool := (relLess a b).getD false

def jsGt (a b : Value) : Bool := (relLess b a).getD false

def jsLe (a b : Value) : Bool :=
  match relLess b a with
  | none => false
  | some r => !r

def jsGe (a b : Value) : Bool :=
  match relLess a b with
  | none => false
  | some r => !r

/-- JS loose equality `==` restricted to the value shapes the engine
compares.  Object-vs-object loose equality is JS reference identity; the
predicate evaluator only ever compares a row value against a parsed
number or string literal, so that case is unreachable and modelled as
`false`. -/
def looseEq : Value → Value → Bool
  | vNull, vNull => true
  | vNull, vUndef => true
  | vUndef, vNull => true
  | vUndef, vUndef => true
  | vNum a, vNum b => a == b
  | vStr a, vStr b => a == b
  | vBool a, vBool b => a == b
  | vNum a, vStr s =>
    match jsStrToNum s with
    | some b => a == b
    | none => false
  | vStr s, vNum b =>
    match jsStrToNum s with
    | some a => a == b
    | none => false
  | vBool x, vNum b => (if x then (1 : ℚ) else 0) == b
  | vNum a, vBool y => a == (if y then (1 : ℚ) else 0)
  | vBool x, vStr s =>
    match jsStrToNum s with
    | some b => (if x then (1 : ℚ) else 0) == b
    | none => false
  | vStr s, vBool y =>
    match jsStrToNum s with
    | some a => a == (if y then (1 : ℚ) else 0)
    | none => false
  | vObj _, vStr s => strL "[object Object]" == s
  | vStr s, vObj _ => s == strL "[object Object]"
  | vObj _, _ => false
  | _, vObj _ => false
  | vNull, _ => false
  | _, vNull => false
  | vUndef, _ => false
  | _, vUndef => false

/-- A JS regex line terminator: `.` without the `s` flag matches any
character except these four. -/
def isLineTerm (c : Char) : Bool :=
  c = '\n' || c = '\r' || c = '\u2028' || c = '\u2029'

/-- The suffixes of `t` reachable from `t` by dropping only
non-line-terminator characters: the candidate remainders a `.*` (from a
`%` wildcard) can leave behind. -/
def dropCands : Chars → List Chars
  | [] => [[]]
  | c :: ts => (c :: ts) :: (if isLineTerm c then [] else dropCands ts)

/-- Wildcard matching: the semantics of the regex `matchLike` compiles
(`%` → `.*`, `_` → `.`, everything else escaped to a literal, anchored,
case-insensitive, and without the `s` flag — so `%` and `_` never match
across a line terminator).  First argument is the pattern, second the
text; both are compared case-folded. -/
def likeM : Chars → Chars → Bool
  | [], t => t.isEmpty
  | '%' :: ps, t => (dropCands t).any (fun s => likeM ps s)
  | '_' :: ps, t =>
    match t with
    | [] => false
    | c :: ts => !isLineTerm c && likeM ps ts
  | p :: ps, t =>
    match t with
    | [] => false
    | c :: ts => (p.toLower = c.toLower) && likeM ps ts

/-- `matchLike(value, pattern)` from the source. -/
def matchLike (value pattern : Chars) : Bool := likeM pattern value

/-! ### WHERE predicate trees (`parseWhere`, `evalCondition`) -/

inductive CmpOp where
  | opEq | opNe | opGt | opLt | opGe | opLe | opLike
deriving DecidableEq

inductive BoolOpT where
  | bAnd | bOr
deriving DecidableEq

inductive Lit where
  | num (q : ℚ)
  | str (s : Chars)
deriving DecidableEq

/-- The predicate tree `parseWhere` builds: boolean nodes
`{ op, clauses: [l, r] }` (always binary) over comparison leaves
`{ left, op, right }`. -/
inductive WhereT where
  | node (op : BoolOpT) (l r : WhereT)
  | cmp (left : Chars) (op : CmpOp) (right : Lit)
deriving DecidableEq

def litToValue : Lit → Value
  | .num q => vNum q
  | .str s => vStr s

/-- The literal sequences the `parseWhere` scan looks for. -/
def opSeq : BoolOpT → Chars
  | .bAnd => strL " AND "
  | .bOr => strL " OR "

/-- The `for` loop in `parseWhere`: scan left to right over the
upper-cased text tracking parenthesis depth; at depth 0 report the first
position where `" AND "` or `" OR "` starts.  Index is relative to the
list handed in. -/
def findSplitAux : Chars → Int → Option (Nat × BoolOpT)
  | [], _ => none
  | c :: cs, depth =>
    let step (d : Int) : Option (Nat × BoolOpT) :=
      (findSplitAux cs d).map (fun p => (p.1 + 1, p.2))
    if c = '(' then step (depth + 1)
    else if c = ')' then step (depth - 1)
    else if depth = 0 then
      if startsWithL (opSeq .bAnd) (c :: cs) then some (0, .bAnd)
      else if startsWithL (opSeq .bOr) (c :: cs) then some (0, .bOr)
      else step depth
    else step depth

def findSplit (u : Chars) : Option (Nat × BoolOpT) := findSplitAux u 0

/-- `\w` (ASCII word character). -/
def isWordChar (c : Char) : Bool := c.isAlpha || c.isDigit || c = '_'

/-- `[\w.]`. -/
def isWordDot (c : Char) : Bool := isWordChar c || c = '.'

/-- The operator alternation `(>=|<=|!=|=|>|<|LIKE)` of the comparison
regex, tried in source order (`LIKE` case-insensitively). -/
def matchOp (l : Chars) : Option (CmpOp × Chars) :=
  if startsWithL (strL ">=") l then some (.opGe, l.drop 2)
  else if startsWithL (strL "<=") l then some (.opLe, l.drop 2)
  else if startsWithL (strL "!=") l then some (.opNe, l.drop 2)
  else if startsWithL (strL "=") l then some (.opEq, l.drop 1)
  else if startsWithL (strL ">") l then some (.opGt, l.drop 1)
  else if startsWithL (strL "<") l then some (.opLt, l.drop 1)
  else if toUpperL (l.take 4) = strL "LIKE" then some (.opLike, l.drop 4)
  else none

/-- Tail of the comparison regex after the operator and `\s*`:
`(['"]?)([^'"]+?)\3$`.  Because `\3$` must close the string, the length
of group 4 is forced, so the lazy quantifier needs no search: group 4 is
everything up to the optional closing quote, provided it is non-empty and
quote-free.  The optional quote group is greedy (prefer consuming a
quote, fall back to the empty group). -/
def quoteG4 (rest4 : Chars) : Option Chars :=
  let attempt (closeQ : Chars) (rest5 : Chars) : Option Chars :=
    let k := rest5.length - closeQ.length
    if 1 ≤ k && rest5.drop k = closeQ &&
        (rest5.take k).all (fun c => c ≠ '\'' && c ≠ '"') then
      some (rest5.take k)
    else none
  match rest4 with
  | c :: rest5 =>
    if c = '\'' || c = '"' then
      match attempt [c] rest5 with
      | some g4 => some g4
      | none => attempt [] rest4
    else attempt [] rest4
  | [] => none

/-- `\s*` before the quote/group-4 tail, greedy with backtracking:
`j` spaces first (called with the full whitespace run), then fewer. -/
def tryAfterWs (rest3 : Chars) : Nat → Option Chars
  | 0 => quoteG4 rest3
  | j + 1 =>
    match quoteG4 (rest3.drop (j + 1)) with
    | some r => some r
    | none => tryAfterWs rest3 j

/-- One start position of `([\w.]+)\s*(op)\s*(['"]?)([^'"]+?)\3$`, with
group 1 tried greedily (longest word-dot run first, backtracking down). -/
def tryWithG1 (g1 rest1 : Chars) : Option (Chars × CmpOp × Chars) :=
  let rest2 := rest1.dropWhile isWsChar
  match matchOp rest2 with
  | none => none
  | some (op, rest3) =>
    let ws := (rest3.takeWhile isWsChar).length
    match tryAfterWs rest3 ws with
    | some g4 => some (g1, op, g4)
    | none => none

def matchCompG1 : Nat → Chars → Option (Chars × CmpOp × Chars)
  | 0, _ => none
  | n + 1, l =>
    match tryWithG1 (l.take (n + 1)) (l.drop (n + 1)) with
    | some r => some r
    | none => matchCompG1 n l

def matchCompAt (l : Chars) : Option (Chars × CmpOp × Chars) :=
  matchCompG1 (l.takeWhile isWordDot).length l

/-- `cond.match(/([\w.]+)\s*(>=|<=|!=|=|>|<|LIKE)\s*(['"]?)([^'"]+?)\3$/i)`:
leftmost start position wins. -/
def matchComparison : Chars → Option (Chars × CmpOp × Chars)
  | [] => none
  | c :: rest =>
    match matchCompAt (c :: rest) with
    | some r => some r
    | none => matchComparison rest

theorem trimL_length_le (l : Chars) : (trimL l).length ≤ l.length := by
  unfold trimL
  rw [List.length_reverse]
  refine le_trans (List.dropWhile_sublist _).length_le ?_
  rw [List.length_reverse]
  exact (List.dropWhile_sublist _).length_le

theorem startsWithL_length_le {pre l : Chars} (h : startsWithL pre l = true) :
    pre.length ≤ l.length :=
  (List.isPrefixOf_iff_prefix.mp h).length_le

theorem findSplitAux_bound :
    ∀ (l : Chars) (d : Int) (i : Nat) (op : BoolOpT),
      findSplitAux l d = some (i, op) → i + (opSeq op).length ≤ l.length := by
  intro l
  induction l with
  | nil => intro d i op h; simp [findSplitAux] at h
  | cons c cs ih =>
    intro d i op h
    unfold findSplitAux at h
    simp only at h
    have hstep :
        ∀ d', (findSplitAux cs d').map (fun p => (p.1 + 1, p.2)) = some (i, op) →
          i + (opSeq op).length ≤ (c :: cs).length := by
      intro d' hm
      rcases Option.map_eq_some'.mp hm with ⟨⟨j, op'⟩, hj, he⟩
      cases he
      have := ih d' j op' hj
      simp only [List.length_cons]
      omega
    split at h
    · exact hstep _ h
    · split at h
      · exact hstep _ h
      · split at h
        · split at h
          · cases h
            have := startsWithL_length_le (by assumption :
              startsWithL (opSeq .bAnd) (c :: cs) = true)
            simpa using this
          · split at h
            · cases h
              have := startsWithL_length_le (by assumption :
                startsWithL (opSeq .bOr) (c :: cs) = true)
              simpa using this
            · exact hstep _ h
        · exact hstep _ h

theorem findSplit_bound {u : Chars} {i : Nat} {op : BoolOpT}
    (h : findSplit u = some (i, op)) : i + (opSeq op).length ≤ u.length :=
  findSplitAux_bound u 0 i op h

/-- A string that starts with `'('` and whose last character is `')'`
has at least two characters. -/
theorem paren_pair_two_le {c : Chars} (h1 : startsWithL (strL "(") c = true)
    (h2 : c.getLast? = some ')') : 2 ≤ c.length := by
  rcases List.isPrefixOf_iff_prefix.mp h1 with ⟨t, ht⟩
  have ht' : c = '(' :: t := by simpa [strL] using ht.symm
  cases t with
  | nil =>
    rw [ht'] at h2
    simp at h2
  | cons a b =>
    rw [ht']
    simp [List.length_cons]

theorem opSeq_length_ge (op : BoolOpT) : 4 ≤ (opSeq op).length := by
  cases op <;> simp [opSeq, strL]

/-- `parseWhere(cond)` from the source, with explicit recursion fuel
(any fuel above the text length is ample — `parseWhereN_congr` below —
and `parseWhere` supplies it).  The JS function: trim; if the text
starts with `'('` and ends with `')'` (endpoints only, no matching
check), strip both characters and recurse; otherwise split at the first
shallow `" AND "`/`" OR "` and recurse on both sides (an exception from
the left recursion propagates first); otherwise try the comparison
regex; otherwise throw `Unsupported WHERE clause`. -/
def parseWhereN : Nat → Chars → Except String WhereT
  | 0, cond => .error ("Unsupported WHERE clause: " ++ String.mk cond)
  | fuel + 1, cond =>
    if startsWithL (strL "(") (trimL cond) ∧ (trimL cond).getLast? = some ')' then
      parseWhereN fuel (trimL (((trimL cond).drop 1).dropLast))
    else
      match findSplit (toUpperL (trimL cond)) with
      | some (i, op) =>
        match parseWhereN fuel (trimL ((trimL cond).take i)),
              parseWhereN fuel (trimL ((trimL cond).drop (i + ((opSeq op).length - 1)))) with
        | .ok l, .ok r => .ok (.node op l r)
        | .error e, _ => .error e
        | .ok _, .error e => .error e
      | none =>
        match matchComparison (trimL cond) with
        | some (g1, op, g4) =>
          match jsStrToNum (trimL g4) with
          | some n => .ok (.cmp g1 op (.num n))
          | none => .ok (.cmp g1 op (.str (trimL g4)))
        | none => .error ("Unsupported WHERE clause: " ++ String.mk cond)

def parseWhere (cond : Chars) : Except String WhereT :=
  parseWhereN (cond.length + 1) cond

/-- Fuel irrelevance: any fuel exceeding the text length computes the
same result, so `parseWhere`'s choice of fuel is immaterial and the
fuel-exhausted arm of `parseWhereN` is unreachable. -/
theorem parseWhereN_congr :
    ∀ (f1 f2 : Nat) (cond : Chars), cond.length < f1 → cond.length < f2 →
      parseWhereN f1 cond = parseWhereN f2 cond := by
  intro f1
  induction f1 with
  | zero => intro f2 cond h1 _; exact absurd h1 (Nat.not_lt_zero _)
  | succ f ih =>
    intro f2 cond h1 h2
    cases f2 with
    | zero => exact absurd h2 (Nat.not_lt_zero _)
    | succ g =>
      have htrim := trimL_length_le cond
      show parseWhereN (f + 1) cond = parseWhereN (g + 1) cond
      unfold parseWhereN
      split
      · rename_i h
        obtain ⟨hA, hB⟩ := h
        have hlen2 := paren_pair_two_le hA hB
        have harg := trimL_length_le (((trimL cond).drop 1).dropLast)
        have hdrop : ((((trimL cond).drop 1).dropLast)).length =
            (trimL cond).length - 1 - 1 := by
          simp [List.length_dropLast, List.length_drop]
        exact ih g _ (by omega) (by omega)
      · split
        · rename_i i op heq
          have hb := findSplit_bound heq
          have hlen : (toUpperL (trimL cond)).length = (trimL cond).length := by
            simp [toUpperL]
          have hop := opSeq_length_ge op
          have htake1 := trimL_length_le ((trimL cond).take i)
          have htake2 : ((trimL cond).take i).length ≤ i := by
            simp [List.length_take]
          have hdrop1 := trimL_length_le ((trimL cond).drop (i + ((opSeq op).length - 1)))
          have hdrop2 : ((trimL cond).drop (i + ((opSeq op).length - 1))).length =
              (trimL cond).length - (i + ((opSeq op).length - 1)) := by
            simp [List.length_drop]
          rw [ih g _ (by omega) (by omega), ih g _ (by omega) (by omega)]
        · rfl

/-! ### Expression and predicate evaluation -/

/-- Property read on an arbitrary value (`cur[p]` in `evalSimpleExpr`):
plain objects look the key up; reads on primitives yield `undefined`
(the engine's column names never hit primitive built-in properties). -/
def valGet : Value → Chars → Value
  | vObj fs, k => objGet fs k
  | _, _ => vUndef

/-- `v == null` (loose): true exactly for `null` and `undefined`. -/
def isLooseNull : Value → Bool
  | vNull => true
  | vUndef => true
  | _ => false

/-- The dotted-path loop of `evalSimpleExpr`: step through the parts,
returning `undefined` as soon as the current value is loosely null. -/
def seqLookup : Value → List Chars → Value
  | cur, [] => cur
  | cur, p :: ps => if isLooseNull cur then vUndef else seqLookup (valGet cur p) ps

/-- `evalSimpleExpr(row, expr)` from the source: trim; if the key is
dotted, split on `"."` and walk the parts; otherwise a single direct
read `row[key]`. -/
def evalSimpleExpr (row : Record) (expr : Chars) : Value :=
  let key := trimL expr
  if '.' ∈ key then seqLookup (vObj row) (splitOnCharL '.' key)
  else objGet row key

/-- `String(val ?? "")`: nullish coalescing then stringification. -/
def jsToStringOrEmpty (v : Value) : Chars :=
  if isLooseNull v then [] else jsToString v

/-! ### `cleanQueryString` and its helpers -/

mutual

/-- The gm-flagged line-comment replace: drop everything from a double
dash to the end of the line (`.` matches neither `\n` nor `\r`, which
stay). -/
def stripLineComments : Chars → Chars
  | [] => []
  | '-' :: '-' :: rest => stripToNewline rest
  | c :: rest => c :: stripLineComments rest

def stripToNewline : Chars → Chars
  | [] => []
  | c :: rest =>
    if c = '\n' || c = '\r' then c :: stripLineComments rest
    else stripToNewline rest

end

mutual

/-- `replace(/\/\*[\s\S]*?\*\//g, "")`: drop lazy block comments; an
unterminated `/*` matches nothing and is kept verbatim (`stripBCIn`
buffers the consumed characters, reversed, for that case). -/
def stripBlockComments : Chars → Chars
  | [] => []
  | '/' :: '*' :: rest => stripBCIn ['*', '/'] rest
  | c :: rest => c :: stripBlockComments rest

def stripBCIn (buf : Chars) : Chars → Chars
  | [] => buf.reverse
  | '*' :: '/' :: rest => stripBlockComments rest
  | c :: rest => stripBCIn (c :: buf) rest

end

/-- `replace(/\r?\n/g, " ")`. -/
def newlinesToSpace : Chars → Chars
  | [] => []
  | '\r' :: '\n' :: rest => ' ' :: newlinesToSpace rest
  | '\n' :: rest => ' ' :: newlinesToSpace rest
  | c :: rest => c :: newlinesToSpace rest

/-- `replace(/\s*;\s*$/, "")` followed by `trim()`, as both call sites
apply them: strip one trailing `;` together with surrounding
whitespace. -/
def stripTrailingSemi (l : Chars) : Chars :=
  let rev := l.reverse.dropWhile isWsChar
  match rev with
  | ';' :: rest => (rest.dropWhile isWsChar).reverse
  | _ => (trimL l)

/-- The shared shape of `/^SELECT (.+?) FROM /i` (in `parseSQL`) and
`/^(SELECT\s+)(.+?)(\s+FROM\s+)([\s\S]*)$/i` (in `cleanQueryString`):
both run on whitespace-normalized text, where `\s+` is a single space.
Returns (lazy select body, text after `" FROM "`). -/
def sfsAux : Chars → Option (Chars × Chars)
  | [] => none
  | c :: rest =>
    if startsWithL (strL " FROM ") (toUpperL rest) then some ([c], rest.drop 6)
    else (sfsAux rest).map (fun p => (c :: p.1, p.2))

def selectFromSplit (l : Chars) : Option (Chars × Chars) :=
  if startsWithL (strL "SELECT ") (toUpperL l) then sfsAux (l.drop 7) else none

/-- `splitSelectFields(selectBody)` from the source: split on commas at
parenthesis depth zero (depth never goes negative), trimming each piece;
a comma pushes its piece unconditionally, the final piece only when
non-empty. -/
def splitSelectFieldsAux : Chars → Chars → Nat → List Chars
  | [], cur, _ =>
    if (trimL cur.reverse).isEmpty then [] else [trimL cur.reverse]
  | c :: rest, cur, depth =>
    if c = '(' then splitSelectFieldsAux rest (c :: cur) (depth + 1)
    else if c = ')' then splitSelectFieldsAux rest (c :: cur) (depth - 1)
    else if c = ',' && depth = 0 then trimL cur.reverse :: splitSelectFieldsAux rest [] 0
    else splitSelectFieldsAux rest (c :: cur) depth

def splitSelectFields (selectBody : Chars) : List Chars :=
  splitSelectFieldsAux selectBody [] 0

/-- `[A-Za-z0-9_]`. -/
def isAlnumUnd (c : Char) : Bool := c.isAlpha || c.isDigit || c = '_'

/-- `[A-Za-z0-9_.]`. -/
def isIdentDot (c : Char) : Bool := isAlnumUnd c || c = '.'

/-- One start position of `/\s+AS\s+([A-Za-z0-9_]+)$/i`: whitespace run,
`AS`, whitespace run, then an identifier reaching the end. -/
def asTailAt (l : Chars) : Option Chars :=
  if (l.takeWhile isWsChar).isEmpty then none
  else
    let r := l.dropWhile isWsChar
    if toUpperL (r.take 2) = strL "AS" then
      let r2 := r.drop 2
      if (r2.takeWhile isWsChar).isEmpty then none
      else
        let r3 := r2.dropWhile isWsChar
        if !r3.isEmpty && r3.all isAlnumUnd then some r3 else none
    else none

/-- Leftmost match of `/\s+AS\s+([A-Za-z0-9_]+)$/i`, with its index. -/
def asMatchScan (p : Nat) : Chars → Option (Nat × Chars)
  | [] => none
  | c :: rest =>
    match asTailAt (c :: rest) with
    | some a => some (p, a)
    | none => asMatchScan (p + 1) rest

mutual

/-- `split(/\s+/)` (on the already-trimmed fields it is applied to). -/
def splitWsA : Chars → Chars → List Chars
  | cur, [] => [cur.reverse]
  | cur, c :: rest =>
    if isWsChar c then cur.reverse :: splitWsB rest else splitWsA (c :: cur) rest

def splitWsB : Chars → List Chars
  | [] => [[]]
  | c :: rest => if isWsChar c then splitWsB rest else splitWsA [c] rest

end

def splitWs (l : Chars) : List Chars := splitWsA [] l

/-- `/\w+\(.*\)/.test(last)`: somewhere a word character immediately
followed by `(`, with a `)` later. -/
def hasFnCallAux : Option Char → Chars → Bool
  | _, [] => false
  | prev, c :: rest =>
    if c = '(' && prev.elim false isWordChar && rest.contains ')' then true
    else hasFnCallAux (some c) rest

def hasFnCall (l : Chars) : Bool := hasFnCallAux none l

/-- The aggregate keywords of `cleanSelectField`'s head test and of
`parseAggregateExpr`, with the matched length. -/
inductive AggFn where
  | fnSum | fnAvg | fnCount | fnMax | fnMin
deriving DecidableEq

def aggKw (r : Chars) : Option (AggFn × Nat) :=
  if startsWithL (strL "COUNT") (toUpperL r) then some (.fnCount, 5)
  else if startsWithL (strL "SUM") (toUpperL r) then some (.fnSum, 3)
  else if startsWithL (strL "AVG") (toUpperL r) then some (.fnAvg, 3)
  else if startsWithL (strL "MIN") (toUpperL r) then some (.fnMin, 3)
  else if startsWithL (strL "MAX") (toUpperL r) then some (.fnMax, 3)
  else none

/-- `/^\s*(COUNT|SUM|AVG|MIN|MAX)\s*\(/i.test(expr)`. -/
def isAggHead (e : Chars) : Bool :=
  let r := e.dropWhile isWsChar
  match aggKw r with
  | some fnn => ((r.drop fnn.2).dropWhile isWsChar).headD ' ' = '('
  | none => false

def joinSep (sep : Chars) : List Chars → Chars
  | [] => []
  | [x] => x
  | x :: xs => x ++ sep ++ joinSep sep xs

/-- `\b` before a keyword: the previous character (if any) is not a word
character. -/
def wordBoundary : Option Char → Bool
  | none => true
  | some p => !isWordChar p

/-- Global `String.replace` driver: scan left to right, replacing
non-overlapping matches and resuming after each match, as the JS
g-flagged `replace` does on the original string.  Every pattern fed to
it consumes at least one character and ends with `')'` (which becomes
the previous character passed for the next `\b` test), and the fuel —
the text length — therefore never runs out. -/
def replaceScanN (matchAt : Option Char → Chars → Option (Chars × Chars)) :
    Nat → Option Char → Chars → Chars
  | 0, _, l => l
  | _ + 1, _, [] => []
  | fuel + 1, prev, c :: rest =>
    match matchAt prev (c :: rest) with
    | some (rep, rem) => rep ++ replaceScanN matchAt fuel (some ')') rem
    | none => c :: replaceScanN matchAt fuel (some c) rest

def replaceScan (matchAt : Option Char → Chars → Option (Chars × Chars))
    (l : Chars) : Chars :=
  replaceScanN matchAt l.length none l

/-- Lazy group `(valid+?)` followed by `tail`: grow the group one
character at a time (shortest match first), failing permanently when an
invalid character is reached. -/
def lazyGroupScan (valid : Char → Bool) (tail : Chars → Option Chars) :
    Chars → Chars → Option (Chars × Chars)
  | g1rev, [] =>
    let _ := g1rev
    none
  | g1rev, c :: rest =>
    if !valid c then none
    else
      match tail rest with
      | some rem => some ((c :: g1rev).reverse, rem)
      | none => lazyGroupScan valid tail (c :: g1rev) rest

/-- Greedy `\s*` before a lazy group: try consuming the whole whitespace
run first, then backtrack to fewer spaces. -/
def wsBacktrack (scan : Chars → Option (Chars × Chars)) (r : Chars) :
    Nat → Option (Chars × Chars)
  | 0 => scan r
  | j + 1 =>
    match scan (r.drop (j + 1)) with
    | some res => some res
    | none => wsBacktrack scan r j

/-- Tail of the CAST-stripping pattern after its lazy group:
`\s*(?:AS\s+)?[A-Z0-9_]+(?:\s*\([^)]*\))?\s*\)` (the `i` flag makes the
type-name class accept lower case too).  Returns the remainder after the
closing parenthesis. -/
def castTail (s : Chars) : Option Chars :=
  let finish (t : Chars) : Option Chars :=
    match t.dropWhile isWsChar with
    | ')' :: t6 => some t6
    | _ => none
  let tryIdent (t : Chars) : Option Chars :=
    let idt := t.takeWhile isAlnumUnd
    if idt.isEmpty then none
    else
      let t2 := t.drop idt.length
      let withParens : Option Chars :=
        match t2.dropWhile isWsChar with
        | '(' :: t4 =>
          let inner := t4.takeWhile (fun c => c ≠ ')')
          match t4.drop inner.length with
          | ')' :: t5 => some t5
          | _ => none
        | _ => none
      match withParens with
      | some t5 =>
        match finish t5 with
        | some r => some r
        | none => finish t2
      | none => finish t2
  let s1 := s.dropWhile isWsChar
  let withAS : Option Chars :=
    if toUpperL (s1.take 2) = strL "AS" then
      let a1 := s1.drop 2
      if (a1.takeWhile isWsChar).isEmpty then none
      else tryIdent (a1.dropWhile isWsChar)
    else none
  match withAS with
  | some r => some r
  | none => tryIdent s1

/-- One position of the gi-flagged CAST replace
(`\bCAST\s*\(\s*([^,)]+?)\s*(?:AS\s+)?[A-Z0-9_]+(?:\s*\([^)]*\))?\s*\)`
→ group 1). -/
def castMatchAt (prev : Option Char) (l : Chars) : Option (Chars × Chars) :=
  if wordBoundary prev && startsWithL (strL "CAST") (toUpperL l) then
    match (l.drop 4).dropWhile isWsChar with
    | '(' :: r2 =>
      wsBacktrack (lazyGroupScan (fun c => c ≠ ',' && c ≠ ')') castTail []) r2
        ((r2.takeWhile isWsChar).length)
    | _ => none
  else none

def fmtKw (l : Chars) : Option Nat :=
  if startsWithL (strL "LOWER") (toUpperL l) then some 5
  else if startsWithL (strL "UPPER") (toUpperL l) then some 5
  else if startsWithL (strL "TRIM") (toUpperL l) then some 4
  else if startsWithL (strL "LTRIM") (toUpperL l) then some 5
  else if startsWithL (strL "RTRIM") (toUpperL l) then some 5
  else none

/-- One position of the gi-flagged formatter replace
(`\b(LOWER|UPPER|TRIM|LTRIM|RTRIM)\s*\(\s*([^)]+?)\s*\)` → group 2). -/
def fmtMatchAt (prev : Option Char) (l : Chars) : Option (Chars × Chars) :=
  if !wordBoundary prev then none
  else
    match fmtKw l with
    | none => none
    | some n =>
      match (l.drop n).dropWhile isWsChar with
      | '(' :: r2 =>
        let tail (t : Chars) : Option Chars :=
          match t.dropWhile isWsChar with
          | ')' :: t2 => some t2
          | _ => none
        wsBacktrack (lazyGroupScan (fun c => c ≠ ')') tail []) r2
          ((r2.takeWhile isWsChar).length)
      | _ => none

/-- `[\s\S]*?\)`: drop everything up to and including the first `)`. -/
def dropToParen : Chars → Option Chars
  | [] => none
  | ')' :: rest => some rest
  | _ :: rest => dropToParen rest

/-- One position of the gi-flagged SUBSTRING replace
(`\bSUBSTRING\s*\(\s*([^)]+?)(?:\s+FROM[\s\S]*?|\s*,[\s\S]*?)\)` →
group 1). -/
def substrMatchAt (prev : Option Char) (l : Chars) : Option (Chars × Chars) :=
  if wordBoundary prev && startsWithL (strL "SUBSTRING") (toUpperL l) then
    match (l.drop 9).dropWhile isWsChar with
    | '(' :: r2 =>
      let tail (t : Chars) : Option Chars :=
        let brA : Option Chars :=
          if (t.takeWhile isWsChar).isEmpty then none
          else
            let t1 := t.dropWhile isWsChar
            if toUpperL (t1.take 4) = strL "FROM" then dropToParen (t1.drop 4)
            else none
        match brA with
        | some r => some r
        | none =>
          match t.dropWhile isWsChar with
          | ',' :: t2 => dropToParen t2
          | _ => none
      wsBacktrack (lazyGroupScan (fun c => c ≠ ')') tail []) r2
        ((r2.takeWhile isWsChar).length)
    | _ => none
  else none

/-- The anchored double-wrap replace
`^\(\s*\(\s*([A-Za-z0-9_.]+)\s*\)\s*\)$` → group 1 (whole-string match
or no change). -/
def pw2 (e : Chars) : Option Chars :=
  match e with
  | '(' :: r1 =>
    match r1.dropWhile isWsChar with
    | '(' :: r3 =>
      let r4 := r3.dropWhile isWsChar
      let idt := r4.takeWhile isIdentDot
      if idt.isEmpty then none
      else
        match (r4.drop idt.length).dropWhile isWsChar with
        | ')' :: r6 =>
          match r6.dropWhile isWsChar with
          | ')' :: r7 => if r7.isEmpty then some idt else none
          | _ => none
        | _ => none
    | _ => none
  | _ => none

/-- The anchored single-wrap replace `^\(\s*([A-Za-z0-9_.]+)\s*\)$` →
group 1. -/
def pw1 (e : Chars) : Option Chars :=
  match e with
  | '(' :: r1 =>
    let r2 := r1.dropWhile isWsChar
    let idt := r2.takeWhile isIdentDot
    if idt.isEmpty then none
    else
      match (r2.drop idt.length).dropWhile isWsChar with
      | ')' :: r4 => if r4.isEmpty then some idt else none
      | _ => none
  | _ => none

/-- `cleanSelectField(field)` from the source: pull an explicit
`AS alias` or a trailing bare-identifier alias off the field, keep
aggregate calls as they are, strip CAST/format/SUBSTRING wrappers and
simple identifier parentheses from everything else, and re-attach the
alias with `AS`. -/
def cleanSelectField (field : Chars) : Chars :=
  let ae : Chars × Chars :=
    match asMatchScan 0 field with
    | some (idx, a) => (a, trimL (field.take idx))
    | none =>
      let parts := splitWs field
      if parts.length > 1 then
        let last := parts.getLastD []
        if !(last.any (fun c => c = '(' || c = ')' || c = ',')) && !hasFnCall last then
          (last, joinSep [' '] parts.dropLast)
        else ([], field)
      else ([], field)
  let al := ae.1
  let expr := ae.2
  if isAggHead expr then
    if al.isEmpty then trimL expr else trimL expr ++ strL " AS " ++ al
  else
    let e := replaceScan substrMatchAt (replaceScan fmtMatchAt (replaceScan castMatchAt expr))
    let e2 := (pw2 e).getD e
    let e3 := (pw1 e2).getD e2
    if al.isEmpty then trimL e3 else trimL e3 ++ strL " AS " ++ al

/-- `cleanQueryString(query)` from the source: strip comments, normalize
whitespace, drop a trailing `;`; when the text has the
`SELECT … FROM …` shape, split the select list depth-aware, clean every
field and rebuild the query (keyword slices keep their original
spelling). -/
def cleanQueryString (query : Chars) : Chars :=
  if query.isEmpty then []
  else
    let cleaned :=
      trimL (collapseWs (newlinesToSpace (stripBlockComments (stripLineComments query))))
    match selectFromSplit cleaned with
    | none => stripTrailingSemi cleaned
    | some (selectBody, rest) =>
      let newSelect := joinSep (strL ", ") ((splitSelectFields selectBody).map cleanSelectField)
      let selectStart := cleaned.take 7
      let fromPart := (cleaned.drop (7 + selectBody.length)).take 6
      stripTrailingSemi (collapseWs (selectStart ++ newSelect ++ fromPart ++ rest))

/-- `evalCondition(row, cond)` from the source (for a present condition
tree; the engine's `if (!cond) return true` guard lives at the call
sites, where an absent WHERE skips filtering).  Note the comparison leaf
reads `row[cond.left]` directly — a single property access on the
literal field text, not a dotted-path walk. -/
def evalCondition (row : Record) : WhereT → Bool
  | .node .bAnd l r => evalCondition row l && evalCondition row r
  | .node .bOr l r => evalCondition row l || evalCondition row r
  | .cmp left op right =>
    let val := objGet row left
    let rv := litToValue right
    match op with
    | .opEq => looseEq val rv
    | .opNe => !looseEq val rv
    | .opGt => jsGt val rv
    | .opLt => jsLt val rv
    | .opGe => jsGe val rv
    | .opLe => jsLe val rv
    | .opLike => matchLike (jsToStringOrEmpty val) (jsToString rv)

/-! ### `parseSQL` -/

/-- A select-list entry of the AST: `{ expr, alias? }`. -/
structure SelectField where
  expr : Chars
  aliasC : Option Chars
deriving DecidableEq

/-- Tail of the select-field alias regex `^(.+?)\s+(?:AS\s+)?([\w.]+)$`
(`i` flag) after the lazy group: whitespace, optionally `AS` plus
whitespace (tried first, as the optional group is greedy), then a
word-or-dot identifier reaching the end. -/
def aliasTail (rest : Chars) : Option Chars :=
  if (rest.takeWhile isWsChar).isEmpty then none
  else
    let r2 := rest.dropWhile isWsChar
    let withAS : Option Chars :=
      if toUpperL (r2.take 2) = strL "AS" then
        let r3 := r2.drop 2
        if (r3.takeWhile isWsChar).isEmpty then none
        else
          let r4 := r3.dropWhile isWsChar
          if !r4.isEmpty && r4.all isWordDot then some r4 else none
      else none
    match withAS with
    | some a => some a
    | none => if !r2.isEmpty && r2.all isWordDot then some r2 else none

/-- Lazy scan for the alias regex: shortest expression prefix whose
remainder matches `aliasTail`. -/
def fieldAliasScan (accRev : Chars) : Chars → Option (Chars × Chars)
  | [] => none
  | c :: rest =>
    match aliasTail rest with
    | some a => some ((c :: accRev).reverse, a)
    | none => fieldAliasScan (c :: accRev) rest

/-- The per-field alias resolution in `parseSQL` (`asMatch`). -/
def parseFieldAlias (f : Chars) : SelectField :=
  match fieldAliasScan [] f with
  | some (expr, al) => { expr := trimL expr, aliasC := some (trimL al) }
  | none => { expr := f, aliasC := none }

/-- `/^SELECT (.+?) FROM /i` on the normalized `clean` text. -/
def selectMatch (clean : Chars) : Option Chars :=
  (selectFromSplit clean).map (·.1)

/-- `/FROM ([^\s]+)(?: |$)/i`: leftmost `FROM ` followed by a non-space
run. -/
def fromMatch : Chars → Option Chars
  | [] => none
  | c :: rest =>
    if startsWithL (strL "FROM ") (toUpperL (c :: rest)) then
      let tok := ((c :: rest).drop 5).takeWhile (fun ch => !isWsChar ch)
      if tok.isEmpty then fromMatch rest else some tok
    else fromMatch rest

/-- Lazy clause body `(.+?)` before one of the stop keywords or the end
of the string (the `(A|B|…|$)` tail of the clause regexes). -/
def clauseAux (stops : List Chars) : Chars → Option Chars
  | [] => none
  | c :: rest =>
    if rest.isEmpty || stops.any (fun s => startsWithL s (toUpperL rest)) then some [c]
    else (clauseAux stops rest).map (fun g => c :: g)

/-- Leftmost `KEY (.+?)(STOPS|$)` clause match. -/
def clauseMatch (key : Chars) (stops : List Chars) : Chars → Option Chars
  | [] => none
  | c :: rest =>
    if startsWithL key (toUpperL (c :: rest)) then
      match clauseAux stops ((c :: rest).drop key.length) with
      | some g => some g
      | none => clauseMatch key stops rest
    else clauseMatch key stops rest

/-- `/WHERE (.+?)(GROUP BY|ORDER BY|LIMIT|$)/i`. -/
def whereMatch (clean : Chars) : Option Chars :=
  clauseMatch (strL "WHERE ") [strL "GROUP BY", strL "ORDER BY", strL "LIMIT"] clean

/-- `/GROUP BY (.+?)(ORDER BY|LIMIT|$)/i`. -/
def groupMatch (clean : Chars) : Option Chars :=
  clauseMatch (strL "GROUP BY ") [strL "ORDER BY", strL "LIMIT"] clean

/-- `/ORDER BY (.+?)(LIMIT|$)/i`. -/
def orderMatch (clean : Chars) : Option Chars :=
  clauseMatch (strL "ORDER BY ") [strL "LIMIT"] clean

/-- `/LIMIT (\d+)/i` with `parseInt`: leftmost `LIMIT ` followed by a
digit run. -/
def limitMatch : Chars → Option Nat
  | [] => none
  | c :: rest =>
    if startsWithL (strL "LIMIT ") (toUpperL (c :: rest)) then
      let digits := ((c :: rest).drop 6).takeWhile Char.isDigit
      if digits.isEmpty then limitMatch rest else some (natOfDigits digits)
    else limitMatch rest

/-- One ORDER BY part: `const [field, dir] = p.split(" ")`, direction
defaulting to `ASC` when missing or empty, otherwise upper-cased as is
(the source casts without validating). -/
def parseOrderPart (p : Chars) : Chars × Chars :=
  let pieces := splitOnCharL ' ' p
  let field := pieces.headD []
  match pieces[1]? with
  | none => (field, strL "ASC")
  | some d => if d.isEmpty then (field, strL "ASC") else (field, toUpperL d)

/-- The `SQLSelectAST` of the source (the constant `type: "select"` tag
is implicit in the Lean type; `executeAST`'s non-select guard can only
fire for hand-built JS values, not for anything `parseSQL` returns). -/
structure SQLSelectAST where
  fields : List SelectField
  fromT : Chars
  whereC : Option WhereT := none
  groupBy : Option (List Chars) := none
  orderBy : Option (List (Chars × Chars)) := none
  limit : Option Nat := none
deriving DecidableEq

/-- `parseSQL(query)` from the source.  Order of effects as in the JS:
normalize and clean; fail without a `SELECT … FROM ` shape; fail when
the raw query's lower-casing contains the substring `join`; split the
select list on every comma (plain `split(",")`); extract FROM; parse
WHERE (propagating its exception); extract GROUP BY, ORDER BY and
LIMIT. -/
def parseSQL (query : Chars) : Except String SQLSelectAST :=
  let clean := cleanQueryString (collapseWs query)
  match selectMatch clean with
  | none => .error "Invalid query: missing SELECT or FROM"
  | some selBody =>
    if containsSub (strL "join") (toLowerL query) then
      .error "Invalid query: JOIN not supported"
    else
      let fields := (splitOnCharL ',' selBody).map (fun f => parseFieldAlias (trimL f))
      match fromMatch clean with
      | none => .error "Invalid query: missing FROM"
      | some fromTok =>
        let gb := (groupMatch clean).map (fun g => (splitOnCharL ',' g).map trimL)
        let ob := (orderMatch clean).map
          (fun o => (splitOnCharL ',' o).map (fun p => parseOrderPart (trimL p)))
        let lim := limitMatch clean
        match (whereMatch clean).map (fun w => parseWhere (trimL w)) with
        | some (.error e) => .error e
        | some (.ok w) =>
          .ok { fields := fields, fromT := fromTok, whereC := some w,
                groupBy := gb, orderBy := ob, limit := lim }
        | none =>
          .ok { fields := fields, fromT := fromTok, whereC := none,
                groupBy := gb, orderBy := ob, limit := lim }

/-! ### Execution (`executeAST` and helpers) -/

/-- `parseAggregateExpr(expr)`:
`/^\s*(SUM|AVG|COUNT|MAX|MIN)\s*\(\s*([\w.*]+)\s*\)\s*$/i`, returning
the upper-cased function and its column (or `*`). -/
def parseAggregateExpr (expr : Chars) : Option (AggFn × Chars) :=
  let r := expr.dropWhile isWsChar
  match aggKw r with
  | none => none
  | some (fn, n) =>
    match (r.drop n).dropWhile isWsChar with
    | '(' :: r3 =>
      let r4 := r3.dropWhile isWsChar
      let col := r4.takeWhile (fun c => isWordDot c || c = '*')
      if col.isEmpty then none
      else
        match (r4.drop col.length).dropWhile isWsChar with
        | ')' :: r6 => if (r6.dropWhile isWsChar).isEmpty then some (fn, col) else none
        | _ => none
    | _ => none

/-- The field classification `executeAST` performs on each select
entry: aggregate (with function and column) or plain (with the trimmed
expression as column); the output alias is `f.alias || f.expr`. -/
inductive FieldK where
  | agg (aliasC : Chars) (fn : AggFn) (col : Chars)
  | plain (aliasC : Chars) (col : Chars)
deriving DecidableEq

def classifyField (f : SelectField) : FieldK :=
  let al := f.aliasC.getD f.expr
  match parseAggregateExpr f.expr with
  | some (fn, col) => .agg al fn col
  | none => .plain al (trimL f.expr)

/-- One row's contribution to `COUNT(col)`:
`Number(v) ? 1 : (v != null ? 1 : 0)` — a truthy numeric coercion
counts, otherwise any loosely non-null value counts. -/
def countVal (v : Value) : Nat :=
  match jsToNumber v with
  | some n => if n ≠ 0 then 1 else if isLooseNull v then 0 else 1
  | none => if isLooseNull v then 0 else 1

/-- `computeAggregatesForGroup(rows, aggregates)` from the source.  For
SUM/AVG/MAX/MIN the column is resolved on every row and coerced with
`Number`; exactly the NaN coercions are discarded (`Number.isNaN`), so
`null` — which coerces to 0 — is retained.  `SUM` of no retained values
is 0; `AVG`/`MAX`/`MIN` of no retained values are `null`. -/
def computeAggregatesForGroup (rows : List Record)
    (aggregates : List (Chars × AggFn × Chars)) : Record :=
  aggregates.foldl (fun out ag =>
    let asN := ag.1
    let fn := ag.2.1
    let col := ag.2.2
    match fn with
    | .fnCount =>
      if col = strL "*" then objSet out asN (vNum rows.length)
      else objSet out asN
        (vNum (rows.foldl (fun acc r => acc + countVal (evalSimpleExpr r col)) 0))
    | _ =>
      let vals := rows.filterMap (fun r => jsToNumber (evalSimpleExpr r col))
      match fn with
      | .fnSum => objSet out asN (vNum (vals.foldl (· + ·) 0))
      | .fnAvg =>
        objSet out asN
          (if vals.length = 0 then vNull
           else vNum (vals.foldl (· + ·) 0 / (vals.length : ℚ)))
      | .fnMax =>
        objSet out asN
          (match vals with
           | [] => vNull
           | v :: vs => vNum (vs.foldl max v))
      | .fnMin =>
        objSet out asN
          (match vals with
           | [] => vNull
           | v :: vs => vNum (vs.foldl min v))
      | .fnCount => out) []

/-- `typeof v === "object"` (true for `null` and plain objects here). -/
def typeofObject : Value → Bool
  | vNull => true
  | vObj _ => true
  | _ => false

/-- One part of a row's group key: `typeof v === "object" ?
JSON.stringify(v) : String(v)` (the stringify of a null/object part is
always defined, so the default is unreachable). -/
def groupKeyPart (v : Value) : Chars :=
  if typeofObject v then (jsonStringify v).getD (strL "undefined") else jsToString v

/-- A row's group key: the parts joined with `"||"`. -/
def groupKeyOf (groupKeys : List Chars) (row : Record) : Chars :=
  joinSep (strL "||") (groupKeys.map (fun k => groupKeyPart (evalSimpleExpr row k)))

/-- The insertion-ordered `Map` building of `executeAST`'s GROUP BY:
append the row to its key's bucket, or append a new bucket. -/
def insertGroup : List (Chars × List Record) → Chars → Record → List (Chars × List Record)
  | [], key, row => [(key, [row])]
  | (k, rs) :: rest, key, row =>
    if k = key then (k, rs ++ [row]) :: rest else (k, rs) :: insertGroup rest key row

def buildGroups (groupKeys : List Chars) (rows : List Record) :
    List (Chars × List Record) :=
  rows.foldl (fun gs row => insertGroup gs (groupKeyOf groupKeys row) row) []

/-- The inner `compare(a, b, field)` of `orderRows`: nulls first (tied
when both null), then numeric when both coerce, then case-insensitive
lexicographic on the string forms.  The JS closure returns a number
whose sign alone is consumed; we return that sign. -/
def compareByField (a b : Record) (field : Chars) : Int :=
  let va := objGet a field
  let vb := objGet b field
  if isLooseNull va && isLooseNull vb then 0
  else if isLooseNull va then -1
  else if isLooseNull vb then 1
  else
    match jsToNumber va, jsToNumber vb with
    | some na, some nb => if na < nb then -1 else if nb < na then 1 else 0
    | _, _ =>
      let sa := toLowerL (jsToString va)
      let sb := toLowerL (jsToString vb)
      if lexLt sa sb then -1 else if lexLt sb sa then 1 else 0

/-- The multi-key comparator of `orderRows` (`DESC` negates; first
non-zero key decides). -/
def orderCmp (ob : List (Chars × Chars)) (a b : Record) : Int :=
  match ob with
  | [] => 0
  | (field, dir) :: rest =>
    let d : Int := if dir = strL "DESC" then -1 else 1
    let c := compareByField a b field
    if c ≠ 0 then c * d else orderCmp rest a b

/-- `orderRows(rows, orderBy)`: a stable sort of a copy by the multi-key
comparator (JS `Array.prototype.sort` is specified stable; modelled as a
stable merge sort). -/
def orderRows (rows : List Record) (ob : List (Chars × Chars)) : List Record :=
  rows.mergeSort (fun a b => decide (orderCmp ob a b ≤ 0))

/-- One iteration of the non-aggregated-fields loop in `executeAST`'s
GROUP BY branch: aggregates were already assigned and are skipped; a
plain column that is a group key is copied to its alias (from the
current row value) when the alias differs; any other plain column is
taken from the group's first row `r0`. -/
def plainFieldStep (groupKeys : List Chars) (r0 : Record) (acc : Record) : FieldK → Record
  | .agg _ _ _ => acc
  | .plain al col =>
    if groupKeys.contains col then
      if al ≠ col then objSet acc al (objGet acc col) else acc
    else objSet acc al (evalSimpleExpr r0 col)

/-- The per-group output row of `executeAST`'s GROUP BY branch: group-by
columns from the first row, then the aggregates (`Object.assign`), then
the non-aggregated selected columns (`plainFieldStep`). -/
def buildGroupRow (groupKeys : List Chars) (fields : List FieldK)
    (aggregates : List (Chars × AggFn × Chars)) (rows : List Record) : Record :=
  let r0 := rows.headD []
  let base := groupKeys.foldl (fun acc gb => objSet acc gb (evalSimpleExpr r0 gb)) []
  let withAggs := objAssign base (computeAggregatesForGroup rows aggregates)
  fields.foldl (plainFieldStep groupKeys r0) withAggs

/-- `executeAST(ast, data)` from the source: filter by WHERE; classify
fields; with GROUP BY, group and emit one row per group, then order and
truncate (`limit != null`, so `LIMIT 0` empties here); without GROUP BY
but with aggregates, one row over the whole filtered set (plain columns
from the first filtered row, else null; `limit != null` truncation);
otherwise project every filtered row, order, and truncate only for a
truthy limit (`if (ast.limit)`, so `LIMIT 0` is ignored here). -/
def executeAST (ast : SQLSelectAST) (data : List Record) : List Record :=
  let filtered :=
    match ast.whereC with
    | some w => data.filter (fun r => evalCondition r w)
    | none => data
  let fields := ast.fields.map classifyField
  let aggregates := fields.filterMap (fun f =>
    match f with
    | .agg al fn col => some (al, fn, col)
    | .plain _ _ => none)
  let grouped : Bool :=
    match ast.groupBy with
    | some gks => gks.length > 0
    | none => false
  if grouped then
    let groupKeys := (ast.groupBy.getD []).map trimL
    let results := (buildGroups groupKeys filtered).map
      (fun g => buildGroupRow groupKeys fields aggregates g.2)
    let ordered :=
      match ast.orderBy with
      | some ob => if ob.length > 0 then orderRows results ob else results
      | none => results
    match ast.limit with
    | some n => ordered.take n
    | none => ordered
  else if aggregates.length > 0 then
    let aggResults := computeAggregatesForGroup filtered aggregates
    let resultRow := objAssign [] aggResults
    let withPlain := fields.foldl (fun acc f =>
      match f with
      | .agg _ _ _ => acc
      | .plain al col =>
        objSet acc al
          (if filtered.length > 0 then evalSimpleExpr (filtered.headD []) col
           else vNull)) resultRow
    match ast.limit with
    | some n => [withPlain].take n
    | none => [withPlain]
  else
    let projected := filtered.map (fun row =>
      fields.foldl (fun out f =>
        match f with
        | .agg al _ col => objSet out al (evalSimpleExpr row col)
        | .plain al col => objSet out al (evalSimpleExpr row col)) [])
    let ordered :=
      match ast.orderBy with
      | some ob => if ob.length > 0 then orderRows projected ob else projected
      | none => projected
    match ast.limit with
    | some n => if n ≠ 0 then ordered.take n else ordered
    | none => ordered

/-! ### Claim theorems -/

/-- C1: `execute(parse("SELECT * FROM t"), data)` does **not** return the
rows of `data`.  The parser keeps `*` as an ordinary select field and the
projection stage evaluates it as a column literally named `*`, so every
output row is `{"*": row["*"]}` — `{"*": undefined}` for ordinary rows —
instead of a value-equal copy of the input row.  Shown generally and at
the failing input `data = [{a: 1}]`, where the output `[{"*": undefined}]`
differs from the claimed `[{a: 1}]`. -/
theorem c1_select_star_projects_literal_star :
    parseSQL (strL "SELECT * FROM t") =
      .ok { fields := [⟨strL "*", none⟩], fromT := strL "t" } ∧
    (∀ data : List Record,
      executeAST { fields := [⟨strL "*", none⟩], fromT := strL "t" } data =
        data.map (fun r => [(strL "*", objGet r (strL "*"))])) ∧
    executeAST { fields := [⟨strL "*", none⟩], fromT := strL "t" }
        [[(strL "a", Value.vNum 1)]] = [[(strL "*", Value.vUndef)]] ∧
    [[(strL "*", Value.vUndef)]] ≠ [[(strL "a", Value.vNum 1)]] := by
  refine ⟨by with_unfolding_all rfl, fun data => rfl, by with_unfolding_all rfl, ?_⟩
  intro h
  have := congrArg (fun l => (l.headD []).map Prod.fst) h
  simp [strL] at this

/-- C3 (failing input): on the WHERE text `(a=1) AND (b=2)` the
parenthesis-stripping step fires although the outer parentheses do not
match each other (the code only checks the first and last characters),
so the text is mangled to `a=1) AND (b=2` and — the depth scan now never
seeing depth zero at the ` AND ` — parsed by the trailing comparison
regex into the single leaf `a = "1) AND (b=2"` instead of a top-level
AND node. -/
theorem c3_strip_fires_on_unmatched_parens :
    parseWhere (strL "(a=1) AND (b=2)") =
      .ok (.cmp (strL "a") .opEq (.str (strL "1) AND (b=2"))) ∧
    (∀ op l r, parseWhere (strL "(a=1) AND (b=2)") ≠ .ok (.node op l r)) := by
  refine ⟨by with_unfolding_all rfl, ?_⟩
  intro op l r h
  rw [(by with_unfolding_all rfl :
    parseWhere (strL "(a=1) AND (b=2)") =
      .ok (.cmp (strL "a") .opEq (.str (strL "1) AND (b=2"))))] at h
  simp at h

/-- C4 (failing input): `parseSQL` re-splits the select list with a plain
`split(",")` (line 33) even though the depth-aware `splitSelectFields`
kept `SUM(a, b)` together inside `cleanQueryString`; the parenthesized
item therefore arrives as the two field entries `SUM(a` and `b)`. -/
theorem c4_plain_comma_split_breaks_parenthesized_item :
    (parseSQL (strL "SELECT SUM(a, b) FROM t")).map (·.fields) =
      .ok [⟨strL "SUM(a", none⟩, ⟨strL "b)", none⟩] ∧
    splitSelectFields (strL "SUM(a, b)") = [strL "SUM(a, b)"] := by
  exact ⟨by with_unfolding_all rfl, by with_unfolding_all rfl⟩

/-- C7 (counterexample): a well-formed query whose only occurrence of
`join` is inside the identifier `joined` is rejected, because the guard
is `query.toLocaleLowerCase().includes('join')` — a bare substring test,
not a keyword test.  The select shape itself is fine (the select body is
exactly `joined`). -/
theorem c7_joined_identifier_rejected :
    parseSQL (strL "SELECT joined FROM t") =
      .error "Invalid query: JOIN not supported" ∧
    containsSub (strL "join") (toLowerL (strL "SELECT joined FROM t")) = true ∧
    selectMatch (cleanQueryString (collapseWs (strL "SELECT joined FROM t"))) =
      some (strL "joined") := by
  exact ⟨by with_unfolding_all rfl, by with_unfolding_all rfl, by with_unfolding_all rfl⟩

/-- C9 (counterexample): `LIMIT 0` is accepted at parse time — the limit
regex `/LIMIT (\d+)/i` matches `0` and the parser stores it without any
rejection, so no ParseError is raised. -/
theorem c9_limit_zero_accepted :
    (parseSQL (strL "SELECT a FROM t LIMIT 0")).map (·.limit) = .ok (some 0) := by
  with_unfolding_all rfl

/-- C2 (counterexample): a group with values `[null, 3]` has AVG `1.5`,
not `3`: `Number(null)` is `0`, not NaN, so the null row is retained,
contributes 0 to the sum and enters the AVG denominator.  The same
retained 0 becomes the group's MIN, where discarding the null row would
give `3`. -/
theorem c2_null_enters_avg_denominator :
    computeAggregatesForGroup [[(strL "x", Value.vNull)], [(strL "x", Value.vNum 3)]]
      [(strL "a", .fnAvg, strL "x")] = [(strL "a", Value.vNum (3 / 2))] ∧
    (3 : ℚ) / 2 ≠ 3 ∧
    computeAggregatesForGroup [[(strL "x", Value.vNull)], [(strL "x", Value.vNum 3)]]
      [(strL "m", .fnMin, strL "x")] = [(strL "m", Value.vNum 0)] ∧
    (0 : ℚ) ≠ 3 := by
  exact ⟨by with_unfolding_all rfl, by norm_num, by with_unfolding_all rfl, by norm_num⟩

/-- C10 (counterexample): when an aggregate is aliased to the group-by
column name (`SELECT SUM(cost) AS dept … GROUP BY dept`), the
`Object.assign` of the aggregate results overwrites the group-by value,
so the output record holds the sum `1` under `dept`, not the group value
`"A"`; and when a plain select field over a different column is aliased
to the group-by column name (`SELECT cost AS dept … GROUP BY dept`), the
non-aggregated-fields loop likewise overwrites it, leaving the cost `7`
under `dept`. -/
theorem c10_aggregate_alias_shadows_group_column :
    (parseSQL (strL "SELECT SUM(cost) AS dept FROM t GROUP BY dept")).map
      (fun ast => executeAST ast
        [[(strL "dept", Value.vStr (strL "A")), (strL "cost", Value.vNum 1)]]) =
      .ok [[(strL "dept", Value.vNum 1)]] ∧
    Value.vNum 1 ≠ Value.vStr (strL "A") ∧
    (parseSQL (strL "SELECT cost AS dept FROM t GROUP BY dept")).map
      (fun ast => executeAST ast
        [[(strL "dept", Value.vStr (strL "A")), (strL "cost", Value.vNum 7)]]) =
      .ok [[(strL "dept", Value.vNum 7)]] ∧
    Value.vNum 7 ≠ Value.vStr (strL "A") := by
  refine ⟨by with_unfolding_all rfl, ?_, by with_unfolding_all rfl, ?_⟩ <;>
    · intro h
      exact absurd h (by simp)

theorem foldl_add_eq_sum (l : List ℚ) : ∀ init : ℚ, l.foldl (· + ·) init = init + l.sum := by
  induction l with
  | nil => simp
  | cons x xs ih =>
    intro init
    simp only [List.foldl_cons, List.sum_cons, ih]
    ring

/-- C2 (amended): for SUM/AVG/MAX/MIN over a column, the engine resolves
the column on each row, coerces with JS `Number`, and discards exactly
the rows whose coercion is NaN — absent/undefined values or non-numeric
strings.  A `null` value is **not** discarded: `Number(null)` is 0, so a
null row contributes 0 to SUM, enters the AVG denominator, and
participates as 0 in MAX/MIN.  Over the retained numeric values, SUM is
their sum, AVG their sum divided by their count (null when none are
retained), and MAX/MIN their maximum/minimum (null when none are
retained). -/
theorem c2_null_coerces_to_zero_and_is_retained (rows : List Record) (col a : Chars) :
    jsToNumber Value.vNull = some 0 ∧
    jsToNumber Value.vUndef = none ∧
    computeAggregatesForGroup rows [(a, .fnSum, col)] =
      [(a, Value.vNum (rows.filterMap (fun r => jsToNumber (evalSimpleExpr r col))).sum)] ∧
    computeAggregatesForGroup rows [(a, .fnAvg, col)] =
      [(a,
        if rows.filterMap (fun r => jsToNumber (evalSimpleExpr r col)) = [] then Value.vNull
        else Value.vNum
          ((rows.filterMap (fun r => jsToNumber (evalSimpleExpr r col))).sum /
            ((rows.filterMap (fun r => jsToNumber (evalSimpleExpr r col))).length : ℚ)))] ∧
    computeAggregatesForGroup rows [(a, .fnMax, col)] =
      [(a, ((rows.filterMap (fun r => jsToNumber (evalSimpleExpr r col))).max?).elim
        Value.vNull Value.vNum)] ∧
    computeAggregatesForGroup rows [(a, .fnMin, col)] =
      [(a, ((rows.filterMap (fun r => jsToNumber (evalSimpleExpr r col))).min?).elim
        Value.vNull Value.vNum)] := by
  refine ⟨rfl, rfl, ?_, ?_, ?_, ?_⟩
  · simp only [computeAggregatesForGroup, List.foldl_cons, List.foldl_nil, objSet,
      foldl_add_eq_sum, zero_add]
  · simp only [computeAggregatesForGroup, List.foldl_cons, List.foldl_nil, objSet,
      foldl_add_eq_sum, zero_add, List.length_eq_zero]
  · cases hv : rows.filterMap (fun r => jsToNumber (evalSimpleExpr r col)) with
    | nil =>
      simp only [computeAggregatesForGroup, List.foldl_cons, List.foldl_nil, objSet, hv]
      rfl
    | cons v vs =>
      simp only [computeAggregatesForGroup, List.foldl_cons, List.foldl_nil, objSet, hv]
      rfl
  · cases hv : rows.filterMap (fun r => jsToNumber (evalSimpleExpr r col)) with
    | nil =>
      simp only [computeAggregatesForGroup, List.foldl_cons, List.foldl_nil, objSet, hv]
      rfl
    | cons v vs =>
      simp only [computeAggregatesForGroup, List.foldl_cons, List.foldl_nil, objSet, hv]
      rfl

/-- C8: for a group whose column yields no numeric-coercible values —
every row's resolved value coerces to NaN under JS `Number` — SUM is 0
while AVG, MAX and MIN are all `null`: never NaN (the model's coercion
has no NaN value to produce) and never a thrown error (the aggregate
engine is a total function). -/
theorem c8_empty_numeric_set_aggregates (rows : List Record) (col a1 a2 a3 a4 : Chars)
    (h : rows.filterMap (fun r => jsToNumber (evalSimpleExpr r col)) = []) :
    computeAggregatesForGroup rows [(a1, .fnSum, col)] = [(a1, Value.vNum 0)] ∧
    computeAggregatesForGroup rows [(a2, .fnAvg, col)] = [(a2, Value.vNull)] ∧
    computeAggregatesForGroup rows [(a3, .fnMax, col)] = [(a3, Value.vNull)] ∧
    computeAggregatesForGroup rows [(a4, .fnMin, col)] = [(a4, Value.vNull)] := by
  refine ⟨?_, ?_, ?_, ?_⟩ <;>
    simp only [computeAggregatesForGroup, List.foldl_cons, List.foldl_nil, objSet, h,
      List.foldl_nil, List.length_nil, List.length_eq_zero, if_true, List.foldl]

/-- Witness for C8: a group of a non-numeric string and an absent value
really yields no numeric-coercible values, and the aggregates evaluate
as the theorem states. -/
theorem c8_empty_numeric_set_aggregates_witness :
    ([[(strL "x", Value.vStr (strL "foo"))], []].filterMap
      (fun r => jsToNumber (evalSimpleExpr r (strL "x"))) = ([] : List ℚ)) ∧
    computeAggregatesForGroup [[(strL "x", Value.vStr (strL "foo"))], []]
      [(strL "avg", .fnAvg, strL "x")] = [(strL "avg", Value.vNull)] := by
  have h : [[(strL "x", Value.vStr (strL "foo"))], []].filterMap
      (fun r => jsToNumber (evalSimpleExpr r (strL "x"))) = ([] : List ℚ) := by
    with_unfolding_all rfl
  exact ⟨h,
    (c8_empty_numeric_set_aggregates [[(strL "x", Value.vStr (strL "foo"))], []]
      (strL "x") (strL "s") (strL "avg") (strL "mx") (strL "mn") h).2.1⟩

/-- C9 (amended): the parser accepts any digit-run LIMIT body including
`0` — `LIMIT 0` parses to `limit = 0` with no error — and a negative
LIMIT simply fails the digit pattern and is silently ignored (limit
unset), again with no error.  At execution time, in the ungrouped
non-aggregate path, truncation is applied only for a *truthy* limit
(`if (ast.limit)`): a stored limit of 0 is ignored there and all rows
come back, while any nonzero limit truncates to the first `n` rows. -/
theorem c9_limit_zero_parses_and_is_ignored_ungrouped
    (data : List Record) (n : Nat) (hn : n ≠ 0) :
    (parseSQL (strL "SELECT a FROM t LIMIT 0")).map (·.limit) = .ok (some 0) ∧
    (parseSQL (strL "SELECT a FROM t LIMIT -5")).map (·.limit) = .ok none ∧
    executeAST { fields := [⟨strL "a", none⟩], fromT := strL "t", limit := some 0 } data =
      data.map (fun r => [(strL "a", objGet r (strL "a"))]) ∧
    executeAST { fields := [⟨strL "a", none⟩], fromT := strL "t", limit := some n } data =
      (data.map (fun r => [(strL "a", objGet r (strL "a"))])).take n := by
  have key : executeAST { fields := [⟨strL "a", none⟩], fromT := strL "t", limit := some n } data =
      if n ≠ 0 then (data.map (fun r => [(strL "a", objGet r (strL "a"))])).take n
      else data.map (fun r => [(strL "a", objGet r (strL "a"))]) := rfl
  exact ⟨by with_unfolding_all rfl, by with_unfolding_all rfl, rfl,
    by rw [key, if_pos hn]⟩

/-- Witness for C9 (amended): with two rows and `LIMIT 1`, truncation to
the first row really happens. -/
theorem c9_limit_witness :
    (1 : Nat) ≠ 0 ∧
    executeAST { fields := [⟨strL "a", none⟩], fromT := strL "t", limit := some 1 }
      [[(strL "a", Value.vNum 1)], [(strL "a", Value.vNum 2)]] =
      [[(strL "a", Value.vNum 1)]] := by
  have h := (c9_limit_zero_parses_and_is_ignored_ungrouped
    [[(strL "a", Value.vNum 1)], [(strL "a", Value.vNum 2)]] 1 (by decide)).2.2.2
  exact ⟨by decide, by rw [h]; rfl⟩

theorem splitOnCharL_of_not_mem {c : Char} : ∀ {l : Chars}, c ∉ l → splitOnCharL c l = [l] := by
  intro l
  induction l with
  | nil => intro _; rfl
  | cons x xs ih =>
    intro h
    have hx : ¬(x = c) := fun he => h (he ▸ List.mem_cons_self x xs)
    have hxs : c ∉ xs := fun hm => h (List.mem_cons_of_mem _ hm)
    simp only [splitOnCharL, if_neg hx, ih hxs]

theorem splitOnCharL_append {c : Char} : ∀ {p t : Chars}, c ∉ p →
    splitOnCharL c (p ++ c :: t) = p :: splitOnCharL c t := by
  intro p
  induction p with
  | nil => intro t _; simp [splitOnCharL]
  | cons x xs ih =>
    intro t h
    have hx : ¬(x = c) := fun he => h (he ▸ List.mem_cons_self x xs)
    have hxs : c ∉ xs := fun hm => h (List.mem_cons_of_mem _ hm)
    simp only [List.cons_append, splitOnCharL, if_neg hx, List.append_eq, ih hxs]

theorem joinSep_cons_cons (sep : Chars) (p q : Chars) (rest : List Chars) :
    joinSep sep (p :: q :: rest) = p ++ sep ++ joinSep sep (q :: rest) := rfl

theorem split_join : ∀ (parts : List Chars), parts ≠ [] →
    (∀ p ∈ parts, '.' ∉ p) →
    splitOnCharL '.' (joinSep (strL ".") parts) = parts := by
  intro parts
  induction parts with
  | nil => intro h _; exact absurd rfl h
  | cons p rest ih =>
    intro _ hdot
    cases rest with
    | nil => exact splitOnCharL_of_not_mem (hdot p (List.mem_cons_self _ _))
    | cons q rest2 =>
      rw [joinSep_cons_cons]
      have hshape : p ++ strL "." ++ joinSep (strL ".") (q :: rest2) =
          p ++ '.' :: joinSep (strL ".") (q :: rest2) := by
        simp [strL]
      rw [hshape, splitOnCharL_append (hdot p (List.mem_cons_self _ _)),
        ih (by simp) (fun x hx => hdot x (List.mem_cons_of_mem _ hx))]

theorem dot_mem_join (p q : Chars) (rest : List Chars) :
    '.' ∈ joinSep (strL ".") (p :: q :: rest) := by
  rw [joinSep_cons_cons]
  exact List.mem_append_left _ (List.mem_append_right _ (by simp [strL]))

/-- C6 (amended): predicate evaluation reads the comparison field as a
**single literal key** — `row[cond.left]` — so the result depends only
on the record's value at the literal (possibly dotted) field text, with
an absent key giving `undefined`, never an error.  Sequential dotted
lookup — step through the parts, yielding `undefined` as soon as a
segment is missing — is performed by `evalSimpleExpr`, which projection
and aggregation use, not by the predicate evaluator. -/
theorem c6_predicate_reads_literal_key (row row2 : Record) (f : Chars) (op : CmpOp)
    (lit : Lit) (parts : List Chars) (h2 : 2 ≤ parts.length)
    (hdot : ∀ p ∈ parts, '.' ∉ p)
    (hws : trimL (joinSep (strL ".") parts) = joinSep (strL ".") parts)
    (heq : objGet row f = objGet row2 f) :
    evalCondition row (.cmp f op lit) = evalCondition row2 (.cmp f op lit) ∧
    evalSimpleExpr row (joinSep (strL ".") parts) = seqLookup (Value.vObj row) parts := by
  constructor
  · simp only [evalCondition, heq]
  · obtain ⟨p, q, rest, hp⟩ : ∃ p q rest, parts = p :: q :: rest := by
      cases parts with
      | nil => simp at h2
      | cons p rest =>
        cases rest with
        | nil => simp at h2
        | cons q rest2 => exact ⟨p, q, rest2, rfl⟩
    subst hp
    have hmem := dot_mem_join p q rest
    have hsplit := split_join (p :: q :: rest) (by simp) hdot
    simp only [evalSimpleExpr, hws, if_pos hmem, hsplit]

/-- C6 (counterexample): on the record `{a: {b: 10}}` the comparison
`a.b > 5` evaluates to **false** — `row["a.b"]` is `undefined` because
the predicate evaluator does not walk the dotted path — even though the
sequential lookup (`evalSimpleExpr`) finds the nested value 10 and
10 > 5 holds under the engine's comparison semantics. -/
theorem c6_dotted_predicate_counterexample :
    evalCondition [(strL "a", Value.vObj [(strL "b", Value.vNum 10)])]
      (.cmp (strL "a.b") .opGt (.num 5)) = false ∧
    evalSimpleExpr [(strL "a", Value.vObj [(strL "b", Value.vNum 10)])] (strL "a.b") =
      Value.vNum 10 ∧
    jsGt (Value.vNum 10) (Value.vNum 5) = true := by
  exact ⟨by with_unfolding_all rfl, by with_unfolding_all rfl, by with_unfolding_all rfl⟩

/-- Witness for C6 (amended), at the record `{a: {b: 10}}`, field
`a.b`, parts `["a", "b"]`. -/
theorem c6_predicate_reads_literal_key_witness :
    (2 ≤ ([strL "a", strL "b"] : List Chars).length) ∧
    evalCondition [(strL "a", Value.vObj [(strL "b", Value.vNum 10)])]
        (.cmp (strL "a.b") .opGt (.num 5)) =
      evalCondition [] (.cmp (strL "a.b") .opGt (.num 5)) ∧
    evalSimpleExpr [(strL "a", Value.vObj [(strL "b", Value.vNum 10)])]
        (joinSep (strL ".") [strL "a", strL "b"]) =
      seqLookup (Value.vObj [(strL "a", Value.vObj [(strL "b", Value.vNum 10)])])
        [strL "a", strL "b"] := by
  have h := c6_predicate_reads_literal_key
    [(strL "a", Value.vObj [(strL "b", Value.vNum 10)])] [] (strL "a.b") .opGt (.num 5)
    [strL "a", strL "b"] (by decide) (by decide) (by decide) rfl
  exact ⟨by decide, h.1, h.2⟩

/-- Parenthesis depth of the scan just before index `i`: opens minus
closes among the first `i` characters (the spec-side notion of "at
parenthesis depth zero"). -/
def depthAt (u : Chars) (i : Nat) : Int :=
  ((((u.take i).filter (fun c => c = '(')).length : Int) -
    (((u.take i).filter (fun c => c = ')')).length : Int))

/-- The literal sequence `" AND "` or `" OR "` occurs at index `i` with
the scan at depth zero. -/
def isTopOpAt (u : Chars) (i : Nat) (op : BoolOpT) : Prop :=
  depthAt u i = 0 ∧ startsWithL (opSeq op) (u.drop i) = true

instance (u : Chars) (i : Nat) (op : BoolOpT) : Decidable (isTopOpAt u i op) := by
  unfold isTopOpAt
  exact instDecidableAnd

/-- `i` is the first depth-zero occurrence of `" AND "`/`" OR "`,
scanning left to right. -/
def firstTopOp (u : Chars) (i : Nat) (op : BoolOpT) : Prop :=
  isTopOpAt u i op ∧ ∀ j < i, ∀ op2, ¬isTopOpAt u j op2

instance (P : BoolOpT → Prop) [inst : ∀ o, Decidable (P o)] : Decidable (∀ o, P o) :=
  decidable_of_iff (P .bAnd ∧ P .bOr)
    ⟨fun h o => by cases o with | bAnd => exact h.1 | bOr => exact h.2,
     fun h => ⟨h .bAnd, h .bOr⟩⟩

instance (u : Chars) (i : Nat) (op : BoolOpT) : Decidable (firstTopOp u i op) := by
  unfold firstTopOp
  exact instDecidableAnd

theorem depthAt_zero (u : Chars) : depthAt u 0 = 0 := by simp [depthAt]

theorem depthAt_cons_succ (c : Char) (cs : Chars) (k : Nat) :
    depthAt (c :: cs) (k + 1) =
      ((if c = '(' then 1 else 0) - (if c = ')' then 1 else 0) : Int) + depthAt cs k := by
  by_cases h1 : c = '(' <;> by_cases h2 : c = ')' <;>
    simp [depthAt, List.take_succ_cons, List.filter_cons, h1, h2] <;> omega

theorem opSeq_head (op : BoolOpT) : ∃ t, opSeq op = ' ' :: t := by
  cases op with
  | bAnd => exact ⟨strL "AND ", rfl⟩
  | bOr => exact ⟨strL "OR ", rfl⟩

theorem prefix_head {pre u : Chars} {c : Char} {t : Chars}
    (h : startsWithL pre u = true) (hp : pre = c :: t) : ∃ r, u = c :: r := by
  rcases List.isPrefixOf_iff_prefix.mp h with ⟨s, hs⟩
  exact ⟨t ++ s, by rw [← hs, hp]; simp⟩

theorem not_and_or_prefix {u : Chars} (h1 : startsWithL (opSeq .bAnd) u = true)
    (h2 : startsWithL (opSeq .bOr) u = true) : False := by
  rcases List.isPrefixOf_iff_prefix.mp h1 with ⟨t1, ht1⟩
  rcases List.isPrefixOf_iff_prefix.mp h2 with ⟨t2, ht2⟩
  rw [← ht1] at ht2
  simp [opSeq, strL] at ht2

/-- The scan loop of `parseWhere` finds exactly the leftmost depth-zero
`" AND "`/`" OR "` occurrence (generalized over the accumulated
depth). -/
theorem findSplitAux_complete :
    ∀ (u : Chars) (d : Int) (i : Nat) (op : BoolOpT),
      (d + depthAt u i = 0 ∧ startsWithL (opSeq op) (u.drop i) = true) →
      (∀ j < i, ∀ op2, ¬(d + depthAt u j = 0 ∧ startsWithL (opSeq op2) (u.drop j) = true)) →
      findSplitAux u d = some (i, op) := by
  intro u
  induction u with
  | nil =>
    intro d i op h _
    rcases opSeq_head op with ⟨t, ht⟩
    rcases prefix_head h.2 ht with ⟨r, hr⟩
    simp at hr
  | cons c cs ih =>
    intro d i op h hmin
    cases i with
    | zero =>
      have hd : d = 0 := by
        have h1 := h.1
        rw [depthAt_zero] at h1
        omega
      rcases opSeq_head op with ⟨t, ht⟩
      rcases prefix_head h.2 ht with ⟨r, hr⟩
      have hc : c = ' ' := by
        simpa using congrArg (fun l => l.headD ' ') hr
      subst hd
      subst hc
      have hs2 : startsWithL (opSeq op) (' ' :: cs) = true := by simpa using h.2
      cases op with
      | bAnd => simp [findSplitAux, hs2]
      | bOr =>
        have hand : startsWithL (opSeq .bAnd) (' ' :: cs) = false := by
          by_contra habs
          exact not_and_or_prefix (eq_true_of_ne_false habs) hs2
        simp [findSplitAux, hand, hs2]
    | succ k =>
      have hdrop : (c :: cs).drop (k + 1) = cs.drop k := rfl
      have hstep :
          ∀ dlt : Int, (if c = '(' then (1 : Int) else 0) - (if c = ')' then 1 else 0) = dlt →
            findSplitAux cs (d + dlt) = some (k, op) := by
        intro dlt hdlt
        apply ih (d + dlt) k op
        · constructor
          · have h1 := h.1
            rw [depthAt_cons_succ, hdlt] at h1
            omega
          · simpa [hdrop] using h.2
        · intro j hj op2 habs
          refine hmin (j + 1) (by omega) op2 ⟨?_, ?_⟩
          · rw [depthAt_cons_succ, hdlt]
            omega
          · simpa using habs.2
      have hmin0 : d = 0 → ∀ op2, startsWithL (opSeq op2) (c :: cs) = false := by
        intro hd op2
        by_contra habs
        refine hmin 0 (by omega) op2 ⟨by rw [depthAt_zero]; omega, ?_⟩
        simpa using eq_true_of_ne_false habs
      unfold findSplitAux
      by_cases hcp : c = '('
      · have h1 := hstep 1 (by subst hcp; decide)
        rw [if_pos hcp]
        simp only [h1, Option.map_some']
      · rw [if_neg hcp]
        by_cases hcq : c = ')'
        · have h1 : findSplitAux cs (d - 1) = some (k, op) := by
            have h2 := hstep (-1) (by subst hcq; decide)
            simpa [sub_eq_add_neg] using h2
          rw [if_pos hcq]
          simp only [h1, Option.map_some']
        · rw [if_neg hcq]
          have hdlt0 : ((if c = '(' then (1 : Int) else 0) - (if c = ')' then 1 else 0)) = 0 := by
            rw [if_neg hcp, if_neg hcq]
            norm_num
          have h1 : findSplitAux cs d = some (k, op) := by
            simpa using hstep 0 hdlt0
          by_cases hd : d = 0
          · rw [if_pos hd, if_neg (by simp [hmin0 hd .bAnd]), if_neg (by simp [hmin0 hd .bOr])]
            simp only [h1, Option.map_some']
          · rw [if_neg hd]
            simp only [h1, Option.map_some']

theorem findSplit_complete {u : Chars} {i : Nat} {op : BoolOpT}
    (h : firstTopOp u i op) : findSplit u = some (i, op) := by
  refine findSplitAux_complete u 0 i op ⟨by simpa using h.1.1, h.1.2⟩ ?_
  intro j hj op2 habs
  exact h.2 j hj op2 ⟨by simpa using habs.1, habs.2⟩

/-- C5 (amended): for every WHERE text that is **not** subject to the
outer-parenthesis-stripping step (its trim does not both start with `(`
and end with `)`), if the first depth-zero occurrence of `" AND "` or
`" OR "` scanning the upper-cased trim left to right is at index `i`,
the parser splits there: it recurses on the left slice and the right
slice (after the operator word) and builds a binary boolean node with
that operator, a left-recursion exception propagating first.  AND and OR
have equal precedence — whichever comes first wins — so
`a=1 OR b=2 AND c=3` parses as `OR(a=1, AND(b=2, c=3))` (the witness).
Texts that do start with `(` and end with `)` are first mangled by the
endpoint strip, and the split may then not happen at all (the
counterexample). -/
theorem c5_leftmost_equal_precedence_split (cond : Chars) (i : Nat) (op : BoolOpT)
    (h0 : ¬(startsWithL (strL "(") (trimL cond) = true ∧ (trimL cond).getLast? = some ')'))
    (h1 : firstTopOp (toUpperL (trimL cond)) i op) :
    parseWhere cond =
      match parseWhere (trimL ((trimL cond).take i)),
            parseWhere (trimL ((trimL cond).drop (i + ((opSeq op).length - 1)))) with
      | .ok l, .ok r => .ok (.node op l r)
      | .error e, _ => .error e
      | .ok _, .error e => .error e := by
  have hfs : findSplit (toUpperL (trimL cond)) = some (i, op) := findSplit_complete h1
  have hb := findSplit_bound hfs
  have hlen : (toUpperL (trimL cond)).length = (trimL cond).length := by simp [toUpperL]
  have hle := trimL_length_le cond
  have hop := opSeq_length_ge op
  have htk1 := trimL_length_le ((trimL cond).take i)
  have htk2 : ((trimL cond).take i).length ≤ i := by simp [List.length_take]
  have hdr1 := trimL_length_le ((trimL cond).drop (i + ((opSeq op).length - 1)))
  have hdr2 : ((trimL cond).drop (i + ((opSeq op).length - 1))).length =
      (trimL cond).length - (i + ((opSeq op).length - 1)) := by simp [List.length_drop]
  have hA : parseWhereN cond.length (trimL ((trimL cond).take i)) =
      parseWhere (trimL ((trimL cond).take i)) :=
    parseWhereN_congr _ _ _ (by omega) (by omega)
  have hB : parseWhereN cond.length
        (trimL ((trimL cond).drop (i + ((opSeq op).length - 1)))) =
      parseWhere (trimL ((trimL cond).drop (i + ((opSeq op).length - 1)))) :=
    parseWhereN_congr _ _ _ (by omega) (by omega)
  show parseWhereN (cond.length + 1) cond = _
  unfold parseWhereN
  rw [if_neg h0, hfs]
  dsimp only
  rw [hA, hB]

/-- C5 (counterexample): `(a=1) OR (b=2)` contains a depth-zero `" OR "`
(at index 5 of its upper-casing), yet the parser does not build a
boolean node for it: the endpoint parenthesis strip fires first, mangles
the text to `a=1) OR (b=2`, and the result is the single comparison leaf
`a = "1) OR (b=2"`. -/
theorem c5_wrapped_text_not_split :
    isTopOpAt (toUpperL (trimL (strL "(a=1) OR (b=2)"))) 5 .bOr ∧
    parseWhere (strL "(a=1) OR (b=2)") =
      .ok (.cmp (strL "a") .opEq (.str (strL "1) OR (b=2"))) ∧
    (∀ op l r, parseWhere (strL "(a=1) OR (b=2)") ≠ .ok (.node op l r)) := by
  refine ⟨by decide, by with_unfolding_all rfl, ?_⟩
  intro op l r h
  rw [(by with_unfolding_all rfl :
    parseWhere (strL "(a=1) OR (b=2)") =
      .ok (.cmp (strL "a") .opEq (.str (strL "1) OR (b=2"))))] at h
  simp at h

/-- Witness for C5 (amended): `a=1 OR b=2 AND c=3` is split at its first
depth-zero operator (the `" OR "` at index 3) and — the right side being
split in turn — parses as `OR(a=1, AND(b=2, c=3))`. -/
theorem c5_leftmost_equal_precedence_split_witness :
    (¬(startsWithL (strL "(") (trimL (strL "a=1 OR b=2 AND c=3")) = true ∧
      (trimL (strL "a=1 OR b=2 AND c=3")).getLast? = some ')')) ∧
    firstTopOp (toUpperL (trimL (strL "a=1 OR b=2 AND c=3"))) 3 .bOr ∧
    parseWhere (strL "a=1 OR b=2 AND c=3") =
      .ok (.node .bOr (.cmp (strL "a") .opEq (.num 1))
        (.node .bAnd (.cmp (strL "b") .opEq (.num 2)) (.cmp (strL "c") .opEq (.num 3)))) := by
  refine ⟨by decide, by decide, ?_⟩
  have h := c5_leftmost_equal_precedence_split (strL "a=1 OR b=2 AND c=3") 3 .bOr
    (by decide) (by decide)
  rw [h]
  with_unfolding_all rfl

/-- C7 (amended): `parse` raises a ParseError **exactly** when the
cleaned text has no `SELECT … FROM ` shape, or no `FROM token` match
(together: SELECT or FROM missing), or the raw query's lower-casing
contains the substring `join` **anywhere** — also inside an identifier
such as `joined`, not only as a JOIN keyword — or a WHERE body is
present whose parse fails; in every other case it succeeds (the
GROUP BY/ORDER BY/LIMIT extractions are total and never raise). -/
theorem c7_parse_error_exactly_when (query : Chars) :
    (∃ e, parseSQL query = .error e) ↔
      (selectMatch (cleanQueryString (collapseWs query)) = none ∨
       containsSub (strL "join") (toLowerL query) = true ∨
       fromMatch (cleanQueryString (collapseWs query)) = none ∨
       (∃ w, whereMatch (cleanQueryString (collapseWs query)) = some w ∧
         ∃ e, parseWhere (trimL w) = .error e)) := by
  simp only [parseSQL]
  cases hsel : selectMatch (cleanQueryString (collapseWs query)) with
  | none => simp [hsel]
  | some sb =>
    simp only [hsel]
    by_cases hj : containsSub (strL "join") (toLowerL query) = true
    · simp [hj]
    · simp only [hj, Bool.false_eq_true, if_false, if_neg]
      cases hfrom : fromMatch (cleanQueryString (collapseWs query)) with
      | none => simp [hfrom, hj]
      | some ft =>
        simp only [hfrom]
        cases hw : whereMatch (cleanQueryString (collapseWs query)) with
        | none => simp [hw, hj]
        | some w =>
          simp only [hw, Option.map_some']
          cases hpw : parseWhere (trimL w) with
          | ok t => simp [hj, hpw]
          | error e => simp [hj, hpw]

/-- The output key a classified field writes under. -/
def fieldAlias : FieldK → Chars
  | .agg al _ _ => al
  | .plain al _ => al

theorem objGet_objSet_same (r : Record) (k : Chars) (v : Value) :
    objGet (objSet r k v) k = v := by
  induction r with
  | nil => simp [objSet, objGet]
  | cons kv rest ih =>
    obtain ⟨k2, w⟩ := kv
    by_cases h : k2 = k
    · simp [objSet, objGet, h]
    · simp [objSet, objGet, h, ih]

theorem objGet_objSet_other (r : Record) (k k2 : Chars) (v : Value) (h : k2 ≠ k) :
    objGet (objSet r k v) k2 = objGet r k2 := by
  induction r with
  | nil =>
    simp only [objSet, objGet]
    rw [if_neg (fun he : k = k2 => h he.symm)]
  | cons kv rest ih =>
    obtain ⟨k3, w⟩ := kv
    simp only [objSet]
    by_cases h3 : k3 = k
    · rw [if_pos h3]
      have hne : ¬(k3 = k2) := fun he => h (h3 ▸ he : k = k2).symm
      simp only [objGet, if_neg hne]
    · rw [if_neg h3]
      by_cases h2 : k3 = k2
      · simp only [objGet, if_pos h2]
      · simp only [objGet, if_neg h2, ih]

theorem objGet_objAssign_of_keys_ne (s : Record) :
    ∀ (t : Record) (g : Chars), (∀ kv ∈ s, kv.1 ≠ g) →
      objGet (objAssign t s) g = objGet t g := by
  induction s with
  | nil => intro t g _; rfl
  | cons kv rest ih =>
    intro t g h
    have h1 : objGet (objSet t kv.1 kv.2) g = objGet t g :=
      objGet_objSet_other _ _ _ _ (Ne.symm (h kv (List.mem_cons_self _ _)))
    calc objGet (objAssign t (kv :: rest)) g
        = objGet (objAssign (objSet t kv.1 kv.2) rest) g := rfl
      _ = objGet (objSet t kv.1 kv.2) g :=
          ih _ g (fun x hx => h x (List.mem_cons_of_mem _ hx))
      _ = objGet t g := h1

theorem mem_objSet {r : Record} {k : Chars} {v : Value} {kv : Chars × Value}
    (h : kv ∈ objSet r k v) : kv.1 = k ∨ kv ∈ r := by
  induction r with
  | nil =>
    simp [objSet] at h
    exact Or.inl (by rw [h])
  | cons p rest ih =>
    obtain ⟨k2, w⟩ := p
    by_cases hk : k2 = k
    · simp only [objSet, if_pos hk] at h
      rcases List.mem_cons.mp h with he | hin
      · exact Or.inl (by rw [he, hk])
      · exact Or.inr (List.mem_cons_of_mem _ hin)
    · simp only [objSet, if_neg hk] at h
      rcases List.mem_cons.mp h with he | hin
      · exact Or.inr (by rw [he]; exact List.mem_cons_self _ _)
      · rcases ih hin with h1 | h2
        · exact Or.inl h1
        · exact Or.inr (List.mem_cons_of_mem _ h2)

theorem foldl_keys_bound {β : Type} (step : Record → β → Record) (key : β → Chars)
    (hstep : ∀ out b kv, kv ∈ step out b → kv.1 = key b ∨ kv ∈ out) :
    ∀ (l : List β) (init : Record) (kv : Chars × Value), kv ∈ l.foldl step init →
      kv ∈ init ∨ ∃ b ∈ l, kv.1 = key b := by
  intro l
  induction l with
  | nil => intro init kv h; exact Or.inl h
  | cons b rest ih =>
    intro init kv h
    rcases ih (step init b) kv h with hin | ⟨b2, hb2, hk⟩
    · rcases hstep init b kv hin with hk | hin2
      · exact Or.inr ⟨b, List.mem_cons_self _ _, hk⟩
      · exact Or.inl hin2
    · exact Or.inr ⟨b2, List.mem_cons_of_mem _ hb2, hk⟩

theorem computeAgg_key_mem {rows : List Record} {aggs : List (Chars × AggFn × Chars)}
    {kv : Chars × Value} (h : kv ∈ computeAggregatesForGroup rows aggs) :
    ∃ ag ∈ aggs, kv.1 = ag.1 := by
  unfold computeAggregatesForGroup at h
  have hb := foldl_keys_bound _ (fun ag : Chars × AggFn × Chars => ag.1) ?_ aggs [] kv h
  · rcases hb with hin | hex
    · simp at hin
    · exact hex
  · intro out ag kv2 hmem
    obtain ⟨aN, fn, col⟩ := ag
    cases fn <;> dsimp only at hmem
    case fnCount =>
      by_cases hc : col = strL "*"
      · rw [if_pos hc] at hmem
        exact mem_objSet hmem
      · rw [if_neg hc] at hmem
        exact mem_objSet hmem
    all_goals exact mem_objSet hmem

theorem foldl_get_preserved {β : Type} (step : Record → β → Record) (g : Chars) :
    ∀ (l : List β), (∀ b ∈ l, ∀ out, objGet (step out b) g = objGet out g) →
      ∀ init, objGet (l.foldl step init) g = objGet init g := by
  intro l
  induction l with
  | nil => intro _ init; rfl
  | cons b rest ih =>
    intro h init
    calc objGet ((b :: rest).foldl step init) g
        = objGet (rest.foldl step (step init b)) g := rfl
      _ = objGet (step init b) g := ih (fun x hx => h x (List.mem_cons_of_mem _ hx)) _
      _ = objGet init g := h b (List.mem_cons_self _ _) init

theorem insertGroup_from {pool : List Record} :
    ∀ {gs : List (Chars × List Record)},
      (∀ e ∈ gs, e.2 ≠ [] ∧ ∀ r ∈ e.2, r ∈ pool) →
      ∀ {key : Chars} {row : Record}, row ∈ pool →
      ∀ e ∈ insertGroup gs key row, e.2 ≠ [] ∧ ∀ r ∈ e.2, r ∈ pool := by
  intro gs
  induction gs with
  | nil =>
    intro _ key row hrow e he
    simp [insertGroup] at he
    subst he
    exact ⟨by simp, by intro r hr; simp at hr; rw [hr]; exact hrow⟩
  | cons p rest ih =>
    intro hg key row hrow e he
    obtain ⟨k2, rs⟩ := p
    by_cases hk : k2 = key
    · simp only [insertGroup, if_pos hk] at he
      rcases List.mem_cons.mp he with he1 | he2
      · subst he1
        refine ⟨by simp, ?_⟩
        intro r hr
        rcases List.mem_append.mp hr with h1 | h2
        · exact (hg (k2, rs) (List.mem_cons_self _ _)).2 r h1
        · simp at h2
          rw [h2]
          exact hrow
      · exact hg e (List.mem_cons_of_mem _ he2)
    · simp only [insertGroup, if_neg hk] at he
      rcases List.mem_cons.mp he with he1 | he2
      · subst he1
        exact hg (k2, rs) (List.mem_cons_self _ _)
      · exact ih (fun x hx => hg x (List.mem_cons_of_mem _ hx)) hrow e he2

theorem buildGroups_from (gks : List Chars) :
    ∀ (rows : List Record) (pool : List Record)
      (gs0 : List (Chars × List Record)),
      (∀ r ∈ rows, r ∈ pool) →
      (∀ e ∈ gs0, e.2 ≠ [] ∧ ∀ r ∈ e.2, r ∈ pool) →
      ∀ e ∈ rows.foldl (fun gs row => insertGroup gs (groupKeyOf gks row) row) gs0,
        e.2 ≠ [] ∧ ∀ r ∈ e.2, r ∈ pool := by
  intro rows
  induction rows with
  | nil => intro pool gs0 _ hg e he; exact hg e he
  | cons row rest ih =>
    intro pool gs0 hrows hg e he
    exact ih pool _ (fun r hr => hrows r (List.mem_cons_of_mem _ hr))
      (insertGroup_from hg (hrows row (List.mem_cons_self _ _)))
      e he

theorem headD_mem {rs : List Record} (h : rs ≠ []) : rs.headD [] ∈ rs := by
  cases rs with
  | nil => exact absurd rfl h
  | cons a t => exact List.mem_cons_self _ _

theorem plainFieldStep_get_g (gks : List Chars) (g : Chars) (hg : g ∈ gks)
    (r0 : Record) (f : FieldK) (acc : Record)
    (hf : ∀ al col, f = FieldK.plain al col → col ≠ g → al ≠ g) :
    objGet (plainFieldStep gks r0 acc f) g = objGet acc g := by
  cases f with
  | agg al fn col => rfl
  | plain al col =>
    by_cases hcg : col = g
    · have hc : gks.contains col = true := by
        rw [hcg]
        simpa using hg
      simp only [plainFieldStep, if_pos hc]
      by_cases hne : al ≠ col
      · rw [if_pos hne]
        exact objGet_objSet_other _ _ _ _ (Ne.symm (hcg ▸ hne))
      · rw [if_neg hne]
    · have hal : al ≠ g := hf al col rfl hcg
      by_cases hc : gks.contains col = true
      · simp only [plainFieldStep, if_pos hc]
        by_cases hne : al ≠ col
        · rw [if_pos hne]
          exact objGet_objSet_other _ _ _ _ (Ne.symm hal)
        · rw [if_neg hne]
      · simp only [plainFieldStep, if_neg hc]
        exact objGet_objSet_other _ _ _ _ (Ne.symm hal)

theorem plainFieldStep_get_other (ks : List Chars) (r0 : Record) (f : FieldK)
    (acc : Record) (x : Chars) (h : fieldAlias f ≠ x) :
    objGet (plainFieldStep ks r0 acc f) x = objGet acc x := by
  cases f with
  | agg _ _ _ => rfl
  | plain al col =>
    simp only [fieldAlias] at h
    by_cases hc : ks.contains col = true
    · simp only [plainFieldStep, if_pos hc]
      by_cases hne : al ≠ col
      · rw [if_pos hne]
        exact objGet_objSet_other _ _ _ _ (Ne.symm h)
      · rw [if_neg hne]
    · simp only [plainFieldStep, if_neg hc]
      exact objGet_objSet_other _ _ _ _ (Ne.symm h)

theorem plainFold_get_g (gks : List Chars) (g : Chars) (hg : g ∈ gks) (r0 : Record)
    (fields : List FieldK)
    (hplain : ∀ al col, FieldK.plain al col ∈ fields → col ≠ g → al ≠ g) :
    ∀ init, objGet (fields.foldl (plainFieldStep gks r0) init) g = objGet init g :=
  foldl_get_preserved (plainFieldStep gks r0) g fields
    (fun f hf out => plainFieldStep_get_g gks g hg r0 f out
      (fun al col hfe hcg => hplain al col (hfe ▸ hf) hcg))

/-- Looking up any group-by column in the base record (`resultRow[gb] =
evalSimpleExpr(rows[0], gb)` over all `gb`) yields that column's value
from the first row — a duplicate key re-assigns the same value. -/
theorem baseFold_get (r0 : Record) (g : Chars) :
    ∀ (gks : List Chars), g ∈ gks → ∀ init,
      objGet (gks.foldl (fun acc gb => objSet acc gb (evalSimpleExpr r0 gb)) init) g =
        evalSimpleExpr r0 g := by
  intro gks
  induction gks with
  | nil => intro hg; exact absurd hg (List.not_mem_nil g)
  | cons gb rest ih =>
    intro hg init
    by_cases hgr : g ∈ rest
    · exact ih hgr _
    · have hgb : g = gb := by
        rcases List.mem_cons.mp hg with h | h
        · exact h
        · exact absurd h hgr
      subst hgb
      show objGet (rest.foldl _ (objSet init g (evalSimpleExpr r0 g))) g = _
      rw [foldl_get_preserved _ g rest
        (fun b hb out => objGet_objSet_other _ _ _ _ (fun he => hgr (he.symm ▸ hb)))]
      exact objGet_objSet_same _ _ _

theorem computeAgg_keys_ne {rows : List Record} {aggs : List (Chars × AggFn × Chars)}
    {g : Chars} (haggs : ∀ ag ∈ aggs, ag.1 ≠ g) :
    ∀ kv ∈ computeAggregatesForGroup rows aggs, kv.1 ≠ g := by
  intro kv hkv
  rcases computeAgg_key_mem hkv with ⟨ag, hag, hk⟩
  rw [hk]
  exact haggs ag hag

theorem buildGroupRow_get (gks : List Chars) (g : Chars) (hg : g ∈ gks)
    (fields : List FieldK)
    (aggs : List (Chars × AggFn × Chars)) (rows : List Record)
    (haggs : ∀ ag ∈ aggs, ag.1 ≠ g)
    (hplain : ∀ al col, FieldK.plain al col ∈ fields → col ≠ g → al ≠ g) :
    objGet (buildGroupRow gks fields aggs rows) g = evalSimpleExpr (rows.headD []) g := by
  unfold buildGroupRow
  rw [plainFold_get_g gks g hg _ fields hplain,
    objGet_objAssign_of_keys_ne _ _ g (computeAgg_keys_ne haggs)]
  exact baseFold_get _ g gks hg []

theorem buildGroupRow_alias_get (gks : List Chars) (g al : Chars) (hg : g ∈ gks)
    (pre post : List FieldK)
    (aggs : List (Chars × AggFn × Chars)) (rows : List Record)
    (haggs : ∀ ag ∈ aggs, ag.1 ≠ g)
    (hplainpre : ∀ al2 col, FieldK.plain al2 col ∈ pre → col ≠ g → al2 ≠ g)
    (hal : al ≠ g)
    (hpost : ∀ f ∈ post, fieldAlias f ≠ al) :
    objGet (buildGroupRow gks (pre ++ FieldK.plain al g :: post) aggs rows) al =
      evalSimpleExpr (rows.headD []) g := by
  unfold buildGroupRow
  rw [List.foldl_append, List.foldl_cons]
  rw [foldl_get_preserved (plainFieldStep gks _) al post
    (fun f hf out => plainFieldStep_get_other _ _ f out al (hpost f hf))]
  have hcontains : gks.contains g = true := by simpa using hg
  simp only [plainFieldStep, if_pos hcontains, if_pos hal]
  rw [objGet_objSet_same]
  rw [plainFold_get_g gks g hg _ pre hplainpre,
    objGet_objAssign_of_keys_ne _ _ g (computeAgg_keys_ne haggs)]
  exact baseFold_get _ g gks hg []

/-- Every record of `executeAST`'s grouped output is `buildGroupRow`
applied to the member list of one of the groups built from the filtered
rows (ordering permutes and LIMIT truncates, neither adds records). -/
theorem executeAST_grouped_mem (ast : SQLSelectAST) (data : List Record)
    (gks0 : List Chars) (hg : ast.groupBy = some gks0) (hne : gks0 ≠ []) :
    ∀ out ∈ executeAST ast data,
      ∃ e ∈ buildGroups (gks0.map trimL)
          (match ast.whereC with
           | some w => data.filter (fun r => evalCondition r w)
           | none => data),
        out = buildGroupRow (gks0.map trimL) (ast.fields.map classifyField)
          ((ast.fields.map classifyField).filterMap (fun f =>
            match f with
            | .agg al fn col => some (al, fn, col)
            | .plain _ _ => none)) e.2 := by
  intro out hout
  have hlen : gks0.length > 0 := List.length_pos.mpr hne
  simp only [executeAST, hg, Option.getD_some, gt_iff_lt, hlen, decide_True, if_true] at hout
  have hR : out ∈ (buildGroups (gks0.map trimL)
      (match ast.whereC with
       | some w => data.filter (fun r => evalCondition r w)
       | none => data)).map
        (fun e => buildGroupRow (gks0.map trimL) (ast.fields.map classifyField)
          ((ast.fields.map classifyField).filterMap (fun f =>
            match f with
            | .agg al fn col => some (al, fn, col)
            | .plain _ _ => none)) e.2) := by
    cases hlim : ast.limit with
    | some n =>
      rw [hlim] at hout
      dsimp only at hout
      have hout2 := List.take_subset _ _ hout
      cases hord : ast.orderBy with
      | some ob =>
        rw [hord] at hout2
        dsimp only at hout2
        by_cases hlen : 0 < ob.length
        · rw [if_pos hlen] at hout2
          unfold orderRows at hout2
          exact List.mem_mergeSort.mp hout2
        · rwa [if_neg hlen] at hout2
      | none =>
        rw [hord] at hout2
        exact hout2
    | none =>
      rw [hlim] at hout
      dsimp only at hout
      cases hord : ast.orderBy with
      | some ob =>
        rw [hord] at hout
        dsimp only at hout
        by_cases hlen : 0 < ob.length
        · rw [if_pos hlen] at hout
          unfold orderRows at hout
          exact List.mem_mergeSort.mp hout
        · rwa [if_neg hlen] at hout
      | none =>
        rw [hord] at hout
        exact hout
  rcases List.mem_map.mp hR with ⟨e, he, heq⟩
  exact ⟨e, he, heq.symm⟩

/-- C10 (amended): for every grouped query and every trimmed group-by
column `g` of its GROUP BY list, each output record receives `g`'s group
value (resolved from the group's first member, a row of the input) under
the original column path name **before** aggregates and plain fields are
assigned; the value therefore survives to the output — whether or not
`g` is selected — provided no aggregate's output alias equals `g` and no
plain select field over a different column is aliased to `g` (either
collision overwrites the group value: the counterexamples).  When `g` is
additionally selected under a different alias that no later field's
alias shadows, the same value is also copied under that alias. -/
theorem c10_group_value_under_original_and_alias (ast : SQLSelectAST) (data : List Record)
    (gks0 : List Chars) (g : Chars)
    (hg : ast.groupBy = some gks0) (hne : gks0 ≠ []) (hgmem : g ∈ gks0.map trimL)
    (haggs : ∀ al fn col, FieldK.agg al fn col ∈ ast.fields.map classifyField → al ≠ g)
    (hplain : ∀ al col, FieldK.plain al col ∈ ast.fields.map classifyField → col ≠ g → al ≠ g) :
    ∀ out ∈ executeAST ast data, ∃ r, r ∈ data ∧
      objGet out g = evalSimpleExpr r g ∧
      ∀ pre al post, ast.fields.map classifyField = pre ++ FieldK.plain al g :: post →
        al ≠ g → (∀ f ∈ post, fieldAlias f ≠ al) →
        objGet out al = evalSimpleExpr r g := by
  intro out hout
  rcases executeAST_grouped_mem ast data gks0 hg hne out hout with ⟨e, he, heq⟩
  have hsub : ∀ r ∈ (match ast.whereC with
      | some w => data.filter (fun r => evalCondition r w)
      | none => data), r ∈ data := by
    cases ast.whereC with
    | some w =>
      intro r hr
      exact List.mem_of_mem_filter hr
    | none => exact fun r hr => hr
  have hfrom : e.2 ≠ [] ∧ ∀ r ∈ e.2, r ∈ data := by
    unfold buildGroups at he
    exact buildGroups_from (gks0.map trimL) _ data [] hsub (by intro x hx; simp at hx) e he
  have haggs2 : ∀ ag ∈ (ast.fields.map classifyField).filterMap (fun f =>
      match f with
      | FieldK.agg al fn col => some (al, fn, col)
      | FieldK.plain _ _ => none), ag.1 ≠ g := by
    intro ag hag
    rcases List.mem_filterMap.mp hag with ⟨f, hf, hmat⟩
    cases f with
    | agg al fn col =>
      simp only [Option.some.injEq] at hmat
      rw [← hmat]
      exact haggs al fn col hf
    | plain al col => simp at hmat
  refine ⟨e.2.headD [], hfrom.2 _ (headD_mem hfrom.1), ?_, ?_⟩
  · rw [heq]
    exact buildGroupRow_get (gks0.map trimL) g hgmem _ _ e.2 haggs2 hplain
  · intro pre al post hsplit hal hpost
    rw [heq]
    rw [hsplit] at haggs2 ⊢
    exact buildGroupRow_alias_get (gks0.map trimL) g al hgmem pre post _ e.2 haggs2
      (fun al2 col hmem hc => hplain al2 col
        (by rw [hsplit]; exact List.mem_append_left _ hmem) hc)
      hal hpost

/-- Witness for C10 (amended): `SELECT dept AS zone, SUM(cost) AS total
FROM t GROUP BY dept` over `[{dept: "A", cost: 1}]` emits the group
value `"A"` both under the original name `dept` and under the alias
`zone`. -/
theorem c10_group_value_witness :
    executeAST
        { fields := [⟨strL "dept", some (strL "zone")⟩,
                     ⟨strL "SUM(cost)", some (strL "total")⟩],
          fromT := strL "t", groupBy := some [strL "dept"] }
        [[(strL "dept", Value.vStr (strL "A")), (strL "cost", Value.vNum 1)]] =
      [[(strL "dept", Value.vStr (strL "A")), (strL "total", Value.vNum 1),
        (strL "zone", Value.vStr (strL "A"))]] ∧
    objGet [(strL "dept", Value.vStr (strL "A")), (strL "total", Value.vNum 1),
        (strL "zone", Value.vStr (strL "A"))] (strL "dept") = Value.vStr (strL "A") ∧
    objGet [(strL "dept", Value.vStr (strL "A")), (strL "total", Value.vNum 1),
        (strL "zone", Value.vStr (strL "A"))] (strL "zone") = Value.vStr (strL "A") := by
  have hexec : executeAST
      { fields := [⟨strL "dept", some (strL "zone")⟩,
                   ⟨strL "SUM(cost)", some (strL "total")⟩],
        fromT := strL "t", groupBy := some [strL "dept"] }
      [[(strL "dept", Value.vStr (strL "A")), (strL "cost", Value.vNum 1)]] =
      [[(strL "dept", Value.vStr (strL "A")), (strL "total", Value.vNum 1),
        (strL "zone", Value.vStr (strL "A"))]] := by
    with_unfolding_all rfl
  have hcls : ({ fields := [⟨strL "dept", some (strL "zone")⟩, ⟨strL "SUM(cost)", some (strL "total")⟩], fromT := strL "t", groupBy := some [strL "dept"] } : SQLSelectAST).fields.map classifyField =
      [FieldK.plain (strL "zone") (strL "dept"),
       FieldK.agg (strL "total") .fnSum (strL "cost")] := by
    with_unfolding_all rfl
  have h := c10_group_value_under_original_and_alias
    { fields := [⟨strL "dept", some (strL "zone")⟩,
                 ⟨strL "SUM(cost)", some (strL "total")⟩],
      fromT := strL "t", groupBy := some [strL "dept"] }
    [[(strL "dept", Value.vStr (strL "A")), (strL "cost", Value.vNum 1)]]
    [strL "dept"] (strL "dept") rfl (by decide) (by decide)
    (by
      intro al fn col hmem
      rw [hcls] at hmem
      rcases List.mem_cons.mp hmem with h1 | h2
      · exact absurd h1 (by simp)
      · simp only [List.mem_singleton] at h2
        cases h2
        decide)
    (by
      intro al col hmem hc
      rw [hcls] at hmem
      rcases List.mem_cons.mp hmem with h1 | h2
      · cases h1
        exact absurd rfl hc
      · simp only [List.mem_singleton] at h2
        exact absurd h2 (by simp))
    [(strL "dept", Value.vStr (strL "A")), (strL "total", Value.vNum 1),
     (strL "zone", Value.vStr (strL "A"))]
    (by rw [hexec]; exact List.mem_singleton.mpr rfl)
  rcases h with ⟨r, hr, h1, h2⟩
  simp only [List.mem_singleton] at hr
  subst hr
  have hzone := h2 [] (strL "zone") [FieldK.agg (strL "total") .fnSum (strL "cost")]
    (by rw [hcls]; rfl) (by decide) (by decide)
  refine ⟨hexec, ?_, ?_⟩
  · rw [h1]
    with_unfolding_all rfl
  · rw [hzone]
    with_unfolding_all rfl

end Quarr
